import Mathlib

/-!
Verification of the audio assembly engine of the Urdu podcast Streamlit app
(`utils/audio_basic.py`).  The Python module is shallowly embedded here:

* bytes are `List Nat` (each entry a byte value `< 256`);
* the remote TTS provider (`requests.post` inside `_tts_turn`) is an oracle
  `Nat → Bool → Option (List Nat)`: for a 1-based turn index and the
  `want_wav` flag it yields the response body, `none` standing for the
  `BasicAudioError` that `_tts_turn` raises on a non-200 status;
* exceptions are `Except`/`Option` values; the Python-level `TypeError`
  that `_build_wav` hits when called with `sample_rate = None`, and the
  `struct.error` raised by `struct.pack` on out-of-range fields, are
  explicit error constructors;
* observable behaviour (progress callbacks, network requests, parser
  invocations, buffer appends, the one-time MP3 downgrade) is recorded in
  an event trace.

Floating point: the source computes `int(sr * (pause_ms / 1000.0))` and
`int(((idx-1)/total_turns)*90)` with IEEE doubles.  These are embedded as
exact truncated naturals `sr * pause_ms / 1000` and `90 * (idx-1) / total`.
Every concrete value appearing in a theorem below was checked to agree
with the double-precision computation, and the order/bound properties
proved about them hold for both readings.
-/

namespace PodcastAudio

/-- Little-endian encoding of a 16-bit field, as produced by
`struct.pack('<H', n)` for an in-range `n` (byte list of length 2). -/
def le16 (n : Nat) : List Nat := [n % 256, n / 256 % 256]

/-- Little-endian encoding of a 32-bit field, as produced by
`struct.pack('<I', n)` for an in-range `n` (byte list of length 4). -/
def le32 (n : Nat) : List Nat :=
  [n % 256, n / 256 % 256, n / 65536 % 256, n / 16777216 % 256]

/-- `struct.unpack('<H', b)[0]` on a 2-byte slice. -/
def de16 (l : List Nat) : Nat := l.getD 0 0 + 256 * l.getD 1 0

/-- `struct.unpack('<I', b)[0]` on a 4-byte slice. -/
def de32 (l : List Nat) : Nat :=
  l.getD 0 0 + 256 * l.getD 1 0 + 65536 * l.getD 2 0 + 16777216 * l.getD 3 0

/-- Python slice `l[a:b]` (for `a ≤ b`; clamps at the end like Python). -/
def sub (l : List Nat) (a b : Nat) : List Nat := (l.drop a).take (b - a)

/-- The chunk-scanning loop of `_extract_wav_pcm` (source lines 46-55):
starting at `offset`, read a sub-chunk tag and its declared little-endian
length, return the declared byte range of the first `b'data'` sub-chunk,
else skip `8 + chunk_size` bytes and continue while
`offset < len(payload) - 8`.  The loop advances by at least 8 bytes per
step, so `payload.length` iterations of fuel always suffice; the fuel
parameter only makes the recursion structural. -/
def findDataAux (payload : List Nat) : Nat → Nat → Option (List Nat)
  | 0, _ => none
  | fuel + 1, offset =>
    if offset < payload.length - 8 then
      let chunk_id := sub payload offset (offset + 4)
      let chunk_size := de32 (sub payload (offset + 4) (offset + 8))
      if chunk_id = [100, 97, 116, 97] then
        some (sub payload (offset + 8) (offset + 8 + chunk_size))
      else
        findDataAux payload fuel (offset + 8 + chunk_size)
    else
      none

/-- The data-chunk scan of `_extract_wav_pcm`, started at offset 12. -/
def findData (payload : List Nat) : Option (List Nat) :=
  findDataAux payload payload.length 12

/-- `_extract_wav_pcm` (source lines 29-60): header guard
(`len < 44`, `b'RIFF'` at 0, `b'WAVE'` at 8), format fields read at the
fixed offsets 22 (channels), 24 (sample rate), 34 (bits per sample) —
the source comment says "Parse fmt chunk (assume at 12)" — then the
sequential scan for the `data` sub-chunk.
Returns `(pcm, sample_rate, channels, bits_per_sample)`. -/
def extract_wav_pcm (payload : List Nat) :
    Except String (List Nat × Nat × Nat × Nat) :=
  if payload.length < 44 ∨ sub payload 0 4 ≠ [82, 73, 70, 70] ∨
      sub payload 8 12 ≠ [87, 65, 86, 69] then
    Except.error "Unexpected WAV header from ElevenLabs"
  else
    let channels := de16 (sub payload 22 24)
    let sample_rate := de32 (sub payload 24 28)
    let bits_per_sample := de16 (sub payload 34 36)
    match findData payload with
    | some pcm => Except.ok (pcm, sample_rate, channels, bits_per_sample)
    | none => Except.error "No data chunk found in WAV"

/-- `_build_wav` (source lines 62-74): the 44-byte minimal WAV header
(all multi-byte fields little-endian) followed by the payload.
`struct.pack` raises `struct.error` when a field does not fit its width;
that case is `none`. -/
def build_wav (pcm : List Nat) (sample_rate channels bits_per_sample : Nat) :
    Option (List Nat) :=
  let byte_rate := sample_rate * channels * bits_per_sample / 8
  let block_align := channels * bits_per_sample / 8
  let data_size := pcm.length
  let riff_chunk_size := 36 + data_size
  if riff_chunk_size < 4294967296 ∧ channels < 65536 ∧
      sample_rate < 4294967296 ∧ byte_rate < 4294967296 ∧
      block_align < 65536 ∧ bits_per_sample < 65536 ∧
      data_size < 4294967296 then
    some ([82, 73, 70, 70] ++ le32 riff_chunk_size ++ [87, 65, 86, 69] ++
      [102, 109, 116, 32] ++ le32 16 ++ le16 1 ++ le16 channels ++
      le32 sample_rate ++ le32 byte_rate ++ le16 block_align ++
      le16 bits_per_sample ++ [100, 97, 116, 97] ++ le32 data_size ++ pcm)
  else
    none

/-- The silence template (source lines 135-138):
`bytes_per_sample = bps // 8`, `frame_size = channels * bytes_per_sample`,
`silence_samples = int(sr * (pause_ms / 1000.0))`,
`silence_frames = b'\x00' * (silence_samples * frame_size)`. -/
def mkSilence (sample_rate channels bits_per_sample pause_ms : Nat) :
    List Nat :=
  List.replicate ((sample_rate * pause_ms / 1000) *
    (channels * (bits_per_sample / 8))) 0

/-- The per-turn progress percentage `int(((idx-1)/total_turns)*90)`
(source line 126). -/
def pct (idx total : Nat) : Nat := 90 * (idx - 1) / total

deriving instance DecidableEq for Except

/-- Python's whitespace test for `str.strip()` (ASCII whitespace). -/
def isPyWS (c : Char) : Bool :=
  c = ' ' || c = '\t' || c = '\n' || c = '\x0d' || c = '\x0b' || c = '\x0c'

/-- Python's `str.strip()`: remove leading and trailing whitespace. -/
def pyStrip (s : String) : String :=
  ⟨((s.data.dropWhile isPyWS).reverse.dropWhile isPyWS).reverse⟩

/-- One script turn, `{'speaker': ..., 'text': ...}`. -/
structure Turn where
  speaker : String
  text : String
deriving DecidableEq, Repr

/-- Observable events of one assembly job.  `prog` is an invocation of the
progress callback with `(percent, message)`; `req i w` is the network call
`_tts_turn(..., want_wav=w)` for turn `i`; `parseCall i` is an invocation
of `_extract_wav_pcm` on turn `i`'s response; `pcmApp`/`silApp` record an
append of extracted samples / of the silence template to `pcm_chunks`;
`mp3App` an append to `mp3_segments`; `downgrade i` records the one-way
assignment `using_mp3 = True` while handling turn `i`. -/
inductive Ev where
  | prog (percent : Nat) (msg : String)
  | req (turn : Nat) (wantWav : Bool)
  | parseCall (turn : Nat)
  | pcmApp (turn : Nat)
  | silApp (turn : Nat)
  | mp3App (turn : Nat)
  | downgrade (turn : Nat)
deriving DecidableEq, Repr

/-- Terminal failures of one assembly job.  `basicErr` is a raised
`BasicAudioError` that escapes `synthesize_episode_basic`; `pyTypeError`
is the uncaught Python `TypeError` raised by `_build_wav` when the job
reaches the final WAV merge with `sr` still `None`; `pyStructError` is an
uncaught `struct.error` from `struct.pack` on an out-of-range field. -/
inductive RunError where
  | basicErr (msg : String)
  | pyTypeError
  | pyStructError
deriving DecidableEq, Repr

/-- The loop state of `synthesize_episode_basic` (source lines 110-115):
`pcm_chunks`, `mp3_segments`, the established format
`sr, channels, bps` (one `Option` for the three `None`-initialized
variables, set together on line 134), the `using_mp3` flag and the
`silence_frames` template (`[]` until first established, matching that
the source never reads it before assignment). -/
structure AsmState where
  pcm_chunks : List (List Nat)
  mp3_segments : List (List Nat)
  fmt : Option (Nat × Nat × Nat)
  using_mp3 : Bool
  silence_frames : List Nat
deriving DecidableEq, Repr

/-- The MP3 signature test (source line 155): `ID3` tag or an MPEG frame
sync `ff fb` / `ff f3` / `ff f2`. -/
def isMp3Bytes (bs : List Nat) : Bool :=
  bs.take 3 == [73, 68, 51] || bs.take 2 == [255, 251] ||
    bs.take 2 == [255, 243] || bs.take 2 == [255, 242]

/-- The MP3 path of one loop iteration (source lines 152-158): request the
turn as MP3, validate the magic bytes, append to `mp3_segments`.  A failed
request or failed validation raises a `BasicAudioError` that nothing
catches (the `try` only guards the WAV branch). -/
def mp3Step (oracle : Nat → Bool → Option (List Nat)) (idx : Nat)
    (st : AsmState) : List Ev × Except RunError AsmState :=
  match oracle idx false with
  | none => ([Ev.req idx false],
      Except.error (RunError.basicErr "ElevenLabs TTS failed"))
  | some mp3_bytes =>
    if isMp3Bytes mp3_bytes then
      ([Ev.req idx false, Ev.mp3App idx],
        Except.ok { st with mp3_segments := st.mp3_segments ++ [mp3_bytes] })
    else
      ([Ev.req idx false],
        Except.error (RunError.basicErr "Unexpected MP3 fallback bytes"))

/-- One iteration of the per-turn loop (source lines 118-158) for the
1-based turn `idx` of `total`.  Empty-after-strip text is skipped with no
events.  Otherwise the progress callback fires, then: in WAV mode the
turn is requested as WAV and parsed; a request failure, a parse failure,
or the `raise BasicAudioError("Inconsistent audio format returned across
turns")` on a format mismatch are all caught by the same
`except BasicAudioError` and flip `using_mp3` (the format-mismatch raise
on source line 141 sits inside the `try` of line 130, so it downgrades
instead of aborting), after which the same turn is re-requested as MP3.
On parse success the samples are appended, and the silence template after
them whenever `idx != total_turns`. -/
def stepTurn (oracle : Nat → Bool → Option (List Nat))
    (prefer_wav : Bool) (pause_ms total idx : Nat) (turn : Turn)
    (st : AsmState) : List Ev × Except RunError AsmState :=
  let text := pyStrip turn.text
  if text = "" then ([], Except.ok st)
  else
    let progEv := Ev.prog (pct idx total)
      s!"Synthesizing turn {idx}/{total} ({turn.speaker})"
    let switchEv := Ev.prog (pct idx total)
      s!"Switching to MP3 fallback (turn {idx})"
    if prefer_wav && !st.using_mp3 then
      match oracle idx true with
      | none =>
        let (evs2, r) := mp3Step oracle idx { st with using_mp3 := true }
        ([progEv, Ev.req idx true, Ev.downgrade idx, switchEv] ++ evs2, r)
      | some wav_bytes =>
        match extract_wav_pcm wav_bytes with
        | Except.error _ =>
          let (evs2, r) := mp3Step oracle idx { st with using_mp3 := true }
          ([progEv, Ev.req idx true, Ev.parseCall idx, Ev.downgrade idx,
            switchEv] ++ evs2, r)
        | Except.ok (pcm, srate, ch, bits) =>
          match st.fmt with
          | none =>
            let silence := mkSilence srate ch bits pause_ms
            if idx ≠ total then
              ([progEv, Ev.req idx true, Ev.parseCall idx, Ev.pcmApp idx,
                Ev.silApp idx],
                Except.ok { st with
                  fmt := some (srate, ch, bits),
                  silence_frames := silence,
                  pcm_chunks := st.pcm_chunks ++ [pcm, silence] })
            else
              ([progEv, Ev.req idx true, Ev.parseCall idx, Ev.pcmApp idx],
                Except.ok { st with
                  fmt := some (srate, ch, bits),
                  silence_frames := silence,
                  pcm_chunks := st.pcm_chunks ++ [pcm] })
          | some (sr, c, b) =>
            if (srate, ch, bits) = (sr, c, b) then
              if idx ≠ total then
                ([progEv, Ev.req idx true, Ev.parseCall idx, Ev.pcmApp idx,
                  Ev.silApp idx],
                  Except.ok { st with
                    pcm_chunks :=
                      st.pcm_chunks ++ [pcm, st.silence_frames] })
              else
                ([progEv, Ev.req idx true, Ev.parseCall idx, Ev.pcmApp idx],
                  Except.ok { st with pcm_chunks := st.pcm_chunks ++ [pcm] })
            else
              let (evs2, r) := mp3Step oracle idx { st with using_mp3 := true }
              ([progEv, Ev.req idx true, Ev.parseCall idx, Ev.downgrade idx,
                switchEv] ++ evs2, r)
    else
      let (evs2, r) := mp3Step oracle idx st
      (progEv :: evs2, r)

/-- The `for idx, turn in enumerate(script, 1)` loop. -/
def runTurns (oracle : Nat → Bool → Option (List Nat))
    (prefer_wav : Bool) (pause_ms total : Nat) :
    List Turn → Nat → AsmState → List Ev × Except RunError AsmState
  | [], _, st => ([], Except.ok st)
  | turn :: rest, idx, st =>
    match stepTurn oracle prefer_wav pause_ms total idx turn st with
    | (evs, Except.error e) => (evs, Except.error e)
    | (evs, Except.ok st') =>
      let (evs', r) := runTurns oracle prefer_wav pause_ms total rest
        (idx + 1) st'
      (evs ++ evs', r)

/-- `synthesize_episode_basic` (source lines 95-176).  The returned string
is the output filename's extension (`"wav"` / `"mp3"`); the
timestamped prefix is elided.  Note the two unreachable-in-spec ends:
if the loop finishes in WAV mode without ever establishing a format
(every turn empty, or `prefer_wav=False`), the source calls
`_build_wav(merged_pcm, None, None, None)` and dies with a `TypeError`
before any further progress call. -/
def synthesize_episode_basic (oracle : Nat → Bool → Option (List Nat))
    (script : List Turn) (pause_ms : Nat) (prefer_wav : Bool) :
    List Ev × Except RunError (List Nat × String) :=
  if script = [] then
    ([], Except.error (RunError.basicErr "Empty script"))
  else
    match runTurns oracle prefer_wav pause_ms script.length script 1
      ⟨[], [], none, false, []⟩ with
    | (evs, Except.error e) => (evs, Except.error e)
    | (evs, Except.ok st) =>
      if st.using_mp3 then
        (evs ++ [Ev.prog 95 "Merging MP3 segments", Ev.prog 100 "Done"],
          Except.ok (st.mp3_segments.flatten, "mp3"))
      else
        match st.fmt with
        | none => (evs, Except.error RunError.pyTypeError)
        | some (sr, channels, bps) =>
          match build_wav st.pcm_chunks.flatten sr channels bps with
          | none => (evs, Except.error RunError.pyStructError)
          | some w =>
            (evs ++ [Ev.prog 95 "Finalizing WAV file", Ev.prog 100 "Done"],
              Except.ok (w, "wav"))

/-! Trace observables and spec-side definitions used to state the claims. -/

/-- The percentages of the progress-callback invocations of a trace,
in order. -/
def percents (tr : List Ev) : List Nat :=
  tr.filterMap fun e =>
    match e with
    | Ev.prog p _ => some p
    | _ => none

/-- Raw-mode-only observables: a raw-container (WAV) request, a raw parser
invocation, or a silence append. -/
def isRawEvt (e : Ev) : Bool :=
  match e with
  | Ev.req _ true => true
  | Ev.parseCall _ => true
  | Ev.silApp _ => true
  | _ => false

/-- The mode-flip observable. -/
def isDowngrade (e : Ev) : Bool :=
  match e with
  | Ev.downgrade _ => true
  | _ => false

/-- `true` iff a trace contains no downgrade event. -/
def noDowngrade (tr : List Ev) : Bool := tr.all fun e => !isDowngrade e

/-- `true` iff a trace contains neither raw-mode observables nor a
downgrade event: what a job already in Stream mode may still emit. -/
def streamOnly (tr : List Ev) : Bool :=
  tr.all fun e => !(isRawEvt e || isDowngrade e)

/-- Checks the single-downgrade discipline along a trace: before the first
downgrade event anything may happen, and from the first downgrade on no raw
request, no raw parser invocation, no silence append and no second
downgrade may occur. -/
def rawModeDiscipline : List Ev → Bool
  | [] => true
  | e :: rest =>
    if isDowngrade e then streamOnly rest else rawModeDiscipline rest

/-- 1-based indices of the turns whose text is non-empty after stripping,
starting the count at `i`. -/
def idxListFrom : List Turn → Nat → List Nat
  | [], _ => []
  | t :: rest, i =>
    if pyStrip t.text = "" then idxListFrom rest (i + 1)
    else i :: idxListFrom rest (i + 1)

/-- 1-based indices of the non-empty turns of a script. -/
def nonEmptyIdxs (script : List Turn) : List Nat := idxListFrom script 1

/-- Modelled from the spec: the claimed silence frame count
`round(sampleRateHz × durationMs / 1000)` — rounding to nearest, halves
up.  Stated only to compare with the source's truncating computation. -/
def specRoundFrames (sample_rate pause_ms : Nat) : Nat :=
  (sample_rate * pause_ms + 500) / 1000

/-- A typed sub-chunk: tag bytes and body bytes, serialized as
tag ++ little-endian declared length ++ body. -/
def chunkBytes (c : List Nat × List Nat) : List Nat :=
  c.1 ++ le32 c.2.length ++ c.2

/-- Serialization of a sub-chunk sequence. -/
def chunksBytes (cs : List (List Nat × List Nat)) : List Nat :=
  (cs.map chunkBytes).flatten

/-- A well-formed non-`data` sub-chunk: 4-byte tag, not the sample-data
tag, body length representable in the 32-bit length field. -/
def goodChunk (c : List Nat × List Nat) : Prop :=
  c.1.length = 4 ∧ c.1 ≠ [100, 97, 116, 97] ∧ c.2.length < 4294967296

/-- The 16-byte PCM format sub-chunk body: audio format 1 (PCM),
channel count, sample rate, byte rate, block align, bits per sample. -/
def fmtBody (ch sr br ba bits : Nat) : List Nat :=
  le16 1 ++ le16 ch ++ le32 sr ++ le32 br ++ le16 ba ++ le16 bits

/-- A RIFF/WAVE buffer: 12-byte header, a format sub-chunk with body
`body`, further sub-chunks `cs`, then the `data` sub-chunk declaring
`dsz` bytes, with `tail` following the declaration. -/
def riffBuf (rsz : Nat) (body : List Nat)
    (cs : List (List Nat × List Nat)) (dsz : Nat) (tail : List Nat) :
    List Nat :=
  [82, 73, 70, 70] ++ le32 rsz ++ [87, 65, 86, 69] ++
    chunksBytes ((⟨[102, 109, 116, 32], body⟩ : List Nat × List Nat) :: cs) ++
    [100, 97, 116, 97] ++ le32 dsz ++ tail

theorem le16_length (n : Nat) : (le16 n).length = 2 := rfl

theorem le32_length (n : Nat) : (le32 n).length = 4 := rfl

theorem de16_le16 (n : Nat) (h : n < 65536) : de16 (le16 n) = n := by
  simp only [de16, le16, List.getD_cons_zero, List.getD_cons_succ]
  omega

theorem de32_le32 (n : Nat) (h : n < 4294967296) : de32 (le32 n) = n := by
  simp only [de32, le32, List.getD_cons_zero, List.getD_cons_succ]
  omega

theorem sub_shift (pre l : List Nat) (x y : Nat) :
    sub (pre ++ l) (pre.length + x) (pre.length + y) = sub l x y := by
  unfold sub
  rw [List.drop_append]
  congr 1
  omega

theorem sub_zero_take (l : List Nat) (y : Nat) : sub l 0 y = l.take y := by
  simp [sub]

theorem take_of_append (l₁ l₂ : List Nat) (n : Nat) (h : l₁.length = n) :
    (l₁ ++ l₂).take n = l₁ := List.take_left' h

/-- Read a slice of an append at a position expressed relative to the
length of the left part. -/
theorem sub_at (pre l : List Nat) (a b y z : Nat)
    (ha : a = pre.length + y) (hb : b = pre.length + z) :
    sub (pre ++ l) a b = sub l y z := by
  subst ha; subst hb; exact sub_shift pre l y z

/-- One step of the sub-chunk scan past a non-`data` chunk. -/
theorem findDataAux_skip (payload pre : List Nat)
    (c : List Nat × List Nat) (rest : List Nat) (fuel : Nat)
    (hg : goodChunk c)
    (hp : payload = pre ++ (chunkBytes c ++ rest))
    (hr : 1 ≤ rest.length) :
    findDataAux payload (fuel + 1) pre.length =
      findDataAux payload fuel (pre.length + (8 + c.2.length)) := by
  obtain ⟨htag, hne, hlt⟩ := hg
  have hclen : (chunkBytes c).length = 8 + c.2.length := by
    simp [chunkBytes, htag, le32_length]; omega
  have hlen : payload.length =
      pre.length + (8 + c.2.length) + rest.length := by
    subst hp; simp [hclen]; omega
  rw [findDataAux]
  have hcond : pre.length < payload.length - 8 := by omega
  rw [if_pos hcond]
  have hsplit : payload = pre ++ (c.1 ++ (le32 c.2.length ++ (c.2 ++ rest))) := by
    rw [hp]; simp [chunkBytes]
  have hcid : sub payload pre.length (pre.length + 4) = c.1 := by
    rw [hsplit, sub_at pre _ _ _ 0 4 (by omega) rfl, sub_zero_take]
    exact take_of_append _ _ _ htag
  have hsplit2 : payload =
      (pre ++ c.1) ++ (le32 c.2.length ++ (c.2 ++ rest)) := by
    rw [hsplit]; simp
  have hsize : sub payload (pre.length + 4) (pre.length + 8) =
      le32 c.2.length := by
    rw [hsplit2, sub_at (pre ++ c.1) _ _ _ 0 4
      (by simp [htag]) (by simp [htag]), sub_zero_take]
    exact take_of_append _ _ _ (le32_length _)
  rw [hcid, hsize, if_neg hne, de32_le32 _ hlt]
  congr 1
  omega

/-- The sub-chunk scan, arriving at the `data` chunk. -/
theorem findDataAux_data (payload pre : List Nat) (dsz : Nat)
    (tail : List Nat) (fuel : Nat)
    (hp : payload = pre ++ ([100, 97, 116, 97] ++ (le32 dsz ++ tail)))
    (hdsz : dsz < 4294967296) (htail : 1 ≤ tail.length) :
    findDataAux payload (fuel + 1) pre.length = some (tail.take dsz) := by
  have hlen : payload.length = pre.length + 8 + tail.length := by
    subst hp; simp [le32_length]; omega
  rw [findDataAux]
  have hcond : pre.length < payload.length - 8 := by omega
  rw [if_pos hcond]
  have hcid : sub payload pre.length (pre.length + 4) =
      [100, 97, 116, 97] := by
    rw [hp, sub_at pre _ _ _ 0 4 (by omega) rfl, sub_zero_take]
    exact take_of_append _ _ _ rfl
  have hsplit2 : payload =
      (pre ++ [100, 97, 116, 97]) ++ (le32 dsz ++ tail) := by
    rw [hp]; simp
  have hsize : sub payload (pre.length + 4) (pre.length + 8) =
      le32 dsz := by
    rw [hsplit2, sub_at (pre ++ [100, 97, 116, 97]) _ _ _ 0 4
      (by simp) (by simp), sub_zero_take]
    exact take_of_append _ _ _ (le32_length _)
  rw [hcid, hsize, if_pos rfl, de32_le32 _ hdsz]
  have hsplit3 : payload =
      ((pre ++ [100, 97, 116, 97]) ++ le32 dsz) ++ tail := by
    rw [hp]; simp
  rw [hsplit3, sub_at _ _ _ _ 0 dsz
    (by simp [le32_length]) (by simp [le32_length]),
    sub_zero_take]

/-- The full scan across a sequence of well-formed non-`data` chunks
followed by the `data` chunk. -/
theorem findDataAux_scan (cs : List (List Nat × List Nat)) :
    ∀ (payload pre : List Nat) (dsz : Nat) (tail : List Nat) (fuel : Nat),
    payload = pre ++ (chunksBytes cs ++
      ([100, 97, 116, 97] ++ (le32 dsz ++ tail))) →
    (∀ c ∈ cs, goodChunk c) → dsz < 4294967296 → 1 ≤ tail.length →
    cs.length < fuel →
    findDataAux payload fuel pre.length = some (tail.take dsz) := by
  induction cs with
  | nil =>
    intro payload pre dsz tail fuel hp hcs hdsz htail hfuel
    obtain ⟨fuel', rfl⟩ : ∃ f, fuel = f + 1 := ⟨fuel - 1, by omega⟩
    apply findDataAux_data payload pre dsz tail fuel' _ hdsz htail
    simpa [chunksBytes] using hp
  | cons c cs' ih =>
    intro payload pre dsz tail fuel hp hcs hdsz htail hfuel
    obtain ⟨fuel', rfl⟩ : ∃ f, fuel = f + 1 := ⟨fuel - 1, by omega⟩
    have hgc : goodChunk c := hcs c (List.mem_cons_self c cs')
    have hp' : payload = pre ++ (chunkBytes c ++
        (chunksBytes cs' ++ ([100, 97, 116, 97] ++ (le32 dsz ++ tail)))) := by
      rw [hp]; simp [chunksBytes]
    rw [findDataAux_skip payload pre c _ fuel' hgc hp'
      (by simp [le32_length]; omega)]
    have hlenc : (chunkBytes c).length = 8 + c.2.length := by
      simp [chunkBytes, hgc.1, le32_length]; omega
    have hoff : pre.length + (8 + c.2.length) =
        (pre ++ chunkBytes c).length := by simp [hlenc]
    have hp'' : payload = (pre ++ chunkBytes c) ++
        (chunksBytes cs' ++ ([100, 97, 116, 97] ++ (le32 dsz ++ tail))) := by
      rw [hp']; simp
    rw [hoff]
    exact ih payload (pre ++ chunkBytes c) dsz tail fuel' hp''
      (fun d hd => hcs d (List.mem_cons_of_mem c hd)) hdsz htail (by
        simp at hfuel ⊢; omega)

theorem chunksBytes_length_ge (cs : List (List Nat × List Nat))
    (hcs : ∀ c ∈ cs, goodChunk c) :
    cs.length ≤ (chunksBytes cs).length := by
  induction cs with
  | nil => simp [chunksBytes]
  | cons c cs' ih =>
    have hg := hcs c (List.mem_cons_self c cs')
    have h' := ih (fun d hd => hcs d (List.mem_cons_of_mem c hd))
    have : (chunkBytes c).length = 8 + c.2.length := by
      simp [chunkBytes, hg.1, le32_length]; omega
    simp only [chunksBytes, List.map_cons, List.flatten_cons,
      List.length_append, List.length_cons] at *
    omega

/-- Parsing a RIFF/WAVE buffer whose format sub-chunk comes first (as in
every provider response the source handles): the sample payload is the
`data` sub-chunk's declared range wherever that chunk sits, and the format
fields are read from byte offsets 22/24/34, which the leading format
sub-chunk places exactly at the channel-count, sample-rate and
bits-per-sample fields. -/
theorem extract_of_layout (rsz ch sr br ba bits dsz : Nat)
    (cs : List (List Nat × List Nat)) (tail : List Nat)
    (hch : ch < 65536) (hsr : sr < 4294967296) (hbits : bits < 65536)
    (hdsz : dsz < 4294967296) (htail : 1 ≤ tail.length)
    (hcs : ∀ c ∈ cs, goodChunk c) :
    extract_wav_pcm (riffBuf rsz (fmtBody ch sr br ba bits) cs dsz tail) =
      Except.ok (tail.take dsz, sr, ch, bits) := by
  set B := riffBuf rsz (fmtBody ch sr br ba bits) cs dsz tail with hB
  have hfmtlen : (fmtBody ch sr br ba bits).length = 16 := by
    simp [fmtBody, le16_length, le32_length]
  have hBlen : B.length =
      44 + (chunksBytes cs).length + tail.length := by
    rw [hB]
    simp [riffBuf, chunksBytes, chunkBytes, le32_length, le16_length,
      hfmtlen]
    omega
  have hRIFF : sub B 0 4 = [82, 73, 70, 70] := by
    have hd : B = ([82, 73, 70, 70] : List Nat) ++
        (le32 rsz ++ ([87, 65, 86, 69] ++
          (chunksBytes ((⟨[102, 109, 116, 32], fmtBody ch sr br ba bits⟩ :
            List Nat × List Nat) :: cs) ++
            ([100, 97, 116, 97] ++ (le32 dsz ++ tail))))) := by
      rw [hB]; simp [riffBuf]
    rw [hd, sub_zero_take, take_of_append [82, 73, 70, 70] _ 4 (by simp)]
  have hWAVE : sub B 8 12 = [87, 65, 86, 69] := by
    have hd : B = (([82, 73, 70, 70] : List Nat) ++ le32 rsz) ++
        (([87, 65, 86, 69] : List Nat) ++
          (chunksBytes ((⟨[102, 109, 116, 32], fmtBody ch sr br ba bits⟩ :
            List Nat × List Nat) :: cs) ++
            ([100, 97, 116, 97] ++ (le32 dsz ++ tail)))) := by
      rw [hB]; simp [riffBuf]
    rw [hd, sub_at _ _ _ _ 0 4 (by simp [le32_length])
      (by simp [le32_length]), sub_zero_take,
      take_of_append [87, 65, 86, 69] _ 4 (by simp)]
  have hch22 : sub B 22 24 = le16 ch := by
    have hd : B = (([82, 73, 70, 70] : List Nat) ++ le32 rsz ++
        [87, 65, 86, 69] ++ [102, 109, 116, 32] ++ le32 16 ++ le16 1) ++
        (le16 ch ++ (le32 sr ++ (le32 br ++ (le16 ba ++ (le16 bits ++
          (chunksBytes cs ++
            ([100, 97, 116, 97] ++ (le32 dsz ++ tail)))))))) := by
      rw [hB]; simp [riffBuf, chunksBytes, chunkBytes, fmtBody, le16_length, le32_length]
    rw [hd, sub_at _ _ _ _ 0 2 (by simp [le32_length, le16_length])
      (by simp [le32_length, le16_length]), sub_zero_take,
      take_of_append _ _ _ (le16_length ch)]
  have hsr24 : sub B 24 28 = le32 sr := by
    have hd : B = (([82, 73, 70, 70] : List Nat) ++ le32 rsz ++
        [87, 65, 86, 69] ++ [102, 109, 116, 32] ++ le32 16 ++ le16 1 ++
        le16 ch) ++
        (le32 sr ++ (le32 br ++ (le16 ba ++ (le16 bits ++
          (chunksBytes cs ++
            ([100, 97, 116, 97] ++ (le32 dsz ++ tail))))))) := by
      rw [hB]; simp [riffBuf, chunksBytes, chunkBytes, fmtBody, le16_length, le32_length]
    rw [hd, sub_at _ _ _ _ 0 4 (by simp [le32_length, le16_length])
      (by simp [le32_length, le16_length]), sub_zero_take,
      take_of_append _ _ _ (le32_length sr)]
  have hbits34 : sub B 34 36 = le16 bits := by
    have hd : B = (([82, 73, 70, 70] : List Nat) ++ le32 rsz ++
        [87, 65, 86, 69] ++ [102, 109, 116, 32] ++ le32 16 ++ le16 1 ++
        le16 ch ++ le32 sr ++ le32 br ++ le16 ba) ++
        (le16 bits ++ (chunksBytes cs ++
          ([100, 97, 116, 97] ++ (le32 dsz ++ tail)))) := by
      rw [hB]; simp [riffBuf, chunksBytes, chunkBytes, fmtBody, le16_length, le32_length]
    rw [hd, sub_at _ _ _ _ 0 2 (by simp [le32_length, le16_length])
      (by simp [le32_length, le16_length]), sub_zero_take,
      take_of_append _ _ _ (le16_length bits)]
  have hfind : findData B = some (tail.take dsz) := by
    have hd : B = (([82, 73, 70, 70] : List Nat) ++ le32 rsz ++
        [87, 65, 86, 69]) ++
        (chunksBytes ((⟨[102, 109, 116, 32], fmtBody ch sr br ba bits⟩ :
          List Nat × List Nat) :: cs) ++
          ([100, 97, 116, 97] ++ (le32 dsz ++ tail))) := by
      rw [hB]; simp [riffBuf]
    have hgood : ∀ c ∈ (⟨[102, 109, 116, 32], fmtBody ch sr br ba bits⟩ :
        List Nat × List Nat) :: cs, goodChunk c := by
      intro c hc
      rcases List.mem_cons.mp hc with h | h
      · subst h
        refine ⟨rfl, ?_, ?_⟩
        · show ([102, 109, 116, 32] : List Nat) ≠ [100, 97, 116, 97]
          decide
        · show (fmtBody ch sr br ba bits).length < 4294967296
          rw [hfmtlen]; omega
      · exact hcs c h
    have h12 : (([82, 73, 70, 70] : List Nat) ++ le32 rsz ++
        [87, 65, 86, 69]).length = 12 := by simp [le32_length]
    have hcslen := chunksBytes_length_ge cs hcs
    unfold findData
    rw [show (12 : Nat) = (([82, 73, 70, 70] : List Nat) ++ le32 rsz ++
      [87, 65, 86, 69]).length from h12.symm]
    exact findDataAux_scan _ B _ dsz tail B.length hd hgood hdsz htail
      (by simp only [List.length_cons]; omega)
  have hnotshort : ¬ (B.length < 44 ∨ sub B 0 4 ≠ [82, 73, 70, 70] ∨
      sub B 8 12 ≠ [87, 65, 86, 69]) := by
    push_neg
    exact ⟨by omega, hRIFF, hWAVE⟩
  unfold extract_wav_pcm
  rw [if_neg hnotshort, hfind]
  simp only [hch22, hsr24, hbits34, de16_le16 _ hch, de32_le32 _ hsr,
    de16_le16 _ hbits]

/-- Inversion of a successful `_build_wav`: the field bounds hold and the
output is the canonical single-`data`-chunk RIFF buffer. -/
theorem build_wav_some_inv {pcm : List Nat} {sr ch bits : Nat}
    {w : List Nat} (h : build_wav pcm sr ch bits = some w) :
    ch < 65536 ∧ sr < 4294967296 ∧ bits < 65536 ∧
    pcm.length < 4294967296 ∧ 36 + pcm.length < 4294967296 ∧
    w = riffBuf (36 + pcm.length)
      (fmtBody ch sr (sr * ch * bits / 8) (ch * bits / 8) bits)
      [] pcm.length pcm := by
  simp only [build_wav] at h
  split at h
  next hc =>
    obtain ⟨h1, h2, h3, h4, h5, h6, h7⟩ := hc
    refine ⟨h2, h3, h6, h7, h1, ?_⟩
    have := Option.some.inj h
    rw [← this]
    simp [riffBuf, chunksBytes, chunkBytes, fmtBody, le16_length, le32_length]
  next => exact absurd h (by simp)

/-- Round-trip: parsing a written container recovers payload and format,
provided the payload is non-empty. -/
theorem extract_build_roundtrip (pcm : List Nat) (sr ch bits : Nat)
    (w : List Nat) (hw : build_wav pcm sr ch bits = some w)
    (hne : 1 ≤ pcm.length) :
    extract_wav_pcm w = Except.ok (pcm, sr, ch, bits) := by
  obtain ⟨hch, hsr, hbits, hlen, _, hweq⟩ := build_wav_some_inv hw
  rw [hweq, extract_of_layout _ _ _ _ _ _ _ _ _ hch hsr hbits hlen hne
    (by intro c hc; cases hc)]
  rw [List.take_length]

/-! Claim C3: container round-trip. -/

/-- C3 (counterexample): the round-trip fails for the empty payload — a
valid format (44100 Hz, mono, 16-bit) and a payload of length 0 (a
multiple of every frame size) produce a 44-byte container whose `data`
chunk the scan never reaches, because the loop condition
`offset < len(payload) - 8` is already false at offset 36. -/
theorem claim_C3_counterexample :
    extract_wav_pcm ((build_wav [] 44100 1 16).getD []) =
      Except.error "No data chunk found in WAV" := by decide

/-- C3 (amended): for every valid AudioFormat (channel count ≥ 1, bits
per sample in {8,16,24,32}) whose header fields fit their fixed widths
(witnessed by the writer succeeding) and every payload whose length is a
POSITIVE multiple of the frame size, parsing the written container
returns exactly the original payload and format. -/
theorem claim_C3_roundtrip (pcm : List Nat) (sr ch bits m : Nat)
    (w : List Nat)
    (hbits : bits = 8 ∨ bits = 16 ∨ bits = 24 ∨ bits = 32)
    (hch : 1 ≤ ch)
    (hlen : pcm.length = m * (ch * (bits / 8))) (hm : 1 ≤ m)
    (hw : build_wav pcm sr ch bits = some w) :
    extract_wav_pcm w = Except.ok (pcm, sr, ch, bits) := by
  apply extract_build_roundtrip pcm sr ch bits w hw
  rcases hbits with h | h | h | h <;> subst h <;> rw [hlen] <;>
    exact Nat.mul_pos hm (Nat.mul_pos hch (by norm_num))

/-- C3 (witness): the amended round-trip at a concrete input — a 2-byte
16-bit mono payload. -/
theorem claim_C3_roundtrip_witness :
    extract_wav_pcm ((build_wav [5, 9] 44100 1 16).getD []) =
      Except.ok ([5, 9], 44100, 1, 16) :=
  claim_C3_roundtrip [5, 9] 44100 1 16 1 _
    (Or.inr (Or.inl rfl)) (by decide) (by decide) (by decide) rfl

/-! Claim C5: silence sizing. -/

/-- C5 (counterexample): at 44100 Hz, 999 ms, the source's truncating
`int(sr * (pause_ms / 1000.0))` gives 44055 frames where the claimed
`round(sampleRateHz × d / 1000)` gives 44056, so the byte lengths
88110 and 88112 disagree. -/
theorem claim_C5_counterexample :
    (mkSilence 44100 1 16 999).length ≠
      specRoundFrames 44100 999 * (1 * (16 / 8)) := by
  simp only [mkSilence, List.length_replicate, specRoundFrames]
  decide

/-- C5 (amended): the silence buffer's byte length is
`⌊sampleRateHz × d / 1000⌋ × (channelCount × bitsPerSample/8)` (the
source truncates, it does not round to nearest), and every byte of it
is zero. -/
theorem claim_C5_silence_sizing (sr ch bits d : Nat) :
    (mkSilence sr ch bits d).length =
      (sr * d / 1000) * (ch * (bits / 8)) ∧
    ∀ b ∈ mkSilence sr ch bits d, b = 0 := by
  constructor
  · simp [mkSilence]
  · intro b hb
    exact List.eq_of_mem_replicate hb

/-! Claim C9: sub-chunk scanning. -/

/-- A RIFF/WAVE buffer with an extra `LIST` metadata chunk BEFORE the
format chunk: `RIFF <size> WAVE [LIST 4 bytes] [fmt 16 bytes for
mono/44100/16-bit] [data 2 bytes]`. -/
def listFirstBuf : List Nat :=
  [82, 73, 70, 70] ++ le32 900 ++ [87, 65, 86, 69] ++
    chunkBytes ⟨[76, 73, 83, 84], [0, 0, 0, 0]⟩ ++
    chunkBytes ⟨[102, 109, 116, 32], fmtBody 1 44100 88200 2 16⟩ ++
    [100, 97, 116, 97] ++ le32 2 ++ [7, 7]

/-- C9 (counterexample): when a metadata sub-chunk precedes the format
sub-chunk, the parser still succeeds and still finds the sample data by
scanning, but the returned format is NOT taken from the format sub-chunk:
it reads bytes at the fixed offsets 22/24/34, which here fall inside the
metadata chunk and the `fmt ` tag, yielding channel count 0, sample rate
544501094 and bits-per-sample 1 instead of the declared 1/44100/16. -/
theorem claim_C9_counterexample :
    extract_wav_pcm listFirstBuf = Except.ok ([7, 7], 544501094, 0, 1) ∧
    extract_wav_pcm listFirstBuf ≠ Except.ok ([7, 7], 44100, 1, 16) := by
  decide

/-- C9 (amended): for every buffer whose sub-chunk sequence starts with
the format sub-chunk (so the format fields sit at the fixed offsets
22/24/34 the parser reads) followed by any number of well-formed
metadata sub-chunks inserted before the sample-data sub-chunk, parsing
succeeds and returns the sample-data sub-chunk's declared byte range
and the format fields, wherever the sample-data sub-chunk appears. -/
theorem claim_C9_scan (rsz ch sr br ba bits dsz : Nat)
    (cs : List (List Nat × List Nat)) (tail : List Nat)
    (hch : ch < 65536) (hsr : sr < 4294967296) (hbits : bits < 65536)
    (hdsz : dsz < 4294967296) (htail : 1 ≤ tail.length)
    (hcs : ∀ c ∈ cs, goodChunk c) :
    extract_wav_pcm (riffBuf rsz (fmtBody ch sr br ba bits) cs dsz tail) =
      Except.ok (tail.take dsz, sr, ch, bits) :=
  extract_of_layout rsz ch sr br ba bits dsz cs tail hch hsr hbits hdsz
    htail hcs

/-- C9 (witness): the amended scan at a concrete input with one `LIST`
metadata chunk between the format chunk and the data chunk. -/
theorem claim_C9_scan_witness :
    extract_wav_pcm (riffBuf 900 (fmtBody 1 44100 88200 2 16)
      [⟨[76, 73, 83, 84], [0, 0, 0, 0]⟩] 2 [7, 7]) =
      Except.ok ([7, 7], 44100, 1, 16) :=
  claim_C9_scan 900 1 44100 88200 2 16 2
    [⟨[76, 73, 83, 84], [0, 0, 0, 0]⟩] [7, 7]
    (by decide) (by decide) (by decide) (by decide) (by decide)
    (by intro c hc
        simp only [List.mem_singleton] at hc
        subst hc
        exact ⟨rfl, by decide, by decide⟩)

/-! Case analysis of one loop iteration, shared by the trace lemmas. -/

theorem mp3Step_cases (oracle : Nat → Bool → Option (List Nat))
    (idx : Nat) (st : AsmState) :
    (∃ e, mp3Step oracle idx st = ([Ev.req idx false], Except.error e)) ∨
    (∃ b, oracle idx false = some b ∧ isMp3Bytes b = true ∧
      mp3Step oracle idx st = ([Ev.req idx false, Ev.mp3App idx],
        Except.ok { st with mp3_segments := st.mp3_segments ++ [b] })) := by
  unfold mp3Step
  rcases oracle idx false with _ | b
  · exact Or.inl ⟨_, rfl⟩
  · by_cases h : isMp3Bytes b
    · refine Or.inr ⟨b, rfl, h, ?_⟩
      simp [h]
    · refine Or.inl ⟨RunError.basicErr "Unexpected MP3 fallback bytes", ?_⟩
      simp [h]

/-- Exhaustive description of the outcomes of one loop iteration:
skip, WAV success, downgrade (request/parse/format failure caught by the
`except` and re-request as MP3), or direct MP3 path. -/
theorem stepTurn_cases (oracle : Nat → Bool → Option (List Nat))
    (prefer : Bool) (pause total idx : Nat) (turn : Turn) (st : AsmState) :
    (pyStrip turn.text = "" ∧
      stepTurn oracle prefer pause total idx turn st = ([], Except.ok st)) ∨
    (pyStrip turn.text ≠ "" ∧ prefer = true ∧ st.using_mp3 = false ∧
      ∃ pcm sil st',
        stepTurn oracle prefer pause total idx turn st =
          (Ev.prog (pct idx total)
              s!"Synthesizing turn {idx}/{total} ({turn.speaker})" ::
            Ev.req idx true :: Ev.parseCall idx :: Ev.pcmApp idx ::
            (if idx ≠ total then [Ev.silApp idx] else []),
            Except.ok st') ∧
        st'.using_mp3 = false ∧ st'.mp3_segments = st.mp3_segments ∧
        st'.pcm_chunks = st.pcm_chunks ++
          ([pcm] ++ (if idx ≠ total then [sil] else []))) ∨
    (pyStrip turn.text ≠ "" ∧ prefer = true ∧ st.using_mp3 = false ∧
      ∃ pre : List Ev,
        (pre = [Ev.prog (pct idx total)
            s!"Synthesizing turn {idx}/{total} ({turn.speaker})",
          Ev.req idx true] ∨
         pre = [Ev.prog (pct idx total)
            s!"Synthesizing turn {idx}/{total} ({turn.speaker})",
          Ev.req idx true, Ev.parseCall idx]) ∧
        ((∃ e, stepTurn oracle prefer pause total idx turn st =
            (pre ++ [Ev.downgrade idx, Ev.prog (pct idx total)
                s!"Switching to MP3 fallback (turn {idx})",
              Ev.req idx false], Except.error e)) ∨
         (∃ st' b, oracle idx false = some b ∧
            st'.using_mp3 = true ∧
            st'.mp3_segments = st.mp3_segments ++ [b] ∧
            st'.pcm_chunks = st.pcm_chunks ∧
            stepTurn oracle prefer pause total idx turn st =
              (pre ++ [Ev.downgrade idx, Ev.prog (pct idx total)
                  s!"Switching to MP3 fallback (turn {idx})",
                Ev.req idx false, Ev.mp3App idx], Except.ok st')))) ∨
    (pyStrip turn.text ≠ "" ∧ (prefer = false ∨ st.using_mp3 = true) ∧
      ((∃ e, stepTurn oracle prefer pause total idx turn st =
          ([Ev.prog (pct idx total)
              s!"Synthesizing turn {idx}/{total} ({turn.speaker})",
            Ev.req idx false], Except.error e)) ∨
       (∃ st' b, oracle idx false = some b ∧
          st'.using_mp3 = st.using_mp3 ∧
          st'.mp3_segments = st.mp3_segments ++ [b] ∧
          st'.pcm_chunks = st.pcm_chunks ∧
          stepTurn oracle prefer pause total idx turn st =
            ([Ev.prog (pct idx total)
                s!"Synthesizing turn {idx}/{total} ({turn.speaker})",
              Ev.req idx false, Ev.mp3App idx], Except.ok st')))) := by
  by_cases ht : pyStrip turn.text = ""
  · left
    constructor
    · exact ht
    · unfold stepTurn
      rw [if_pos ht]
  by_cases hpw : prefer && !st.using_mp3
  · have hpt : prefer = true := by
      rcases prefer <;> simp_all
    have hum : st.using_mp3 = false := by
      rcases h : st.using_mp3 <;> simp_all
    rcases horc : oracle idx true with _ | wb
    · -- request failed: downgrade
      right; right; left
      refine ⟨ht, hpt, hum, [Ev.prog (pct idx total) _, Ev.req idx true],
        Or.inl rfl, ?_⟩
      rcases mp3Step_cases oracle idx { st with using_mp3 := true }
        with ⟨e, hm⟩ | ⟨b, hb, hmp3, hm⟩
      · left
        refine ⟨e, ?_⟩
        unfold stepTurn
        rw [if_neg ht, if_pos hpw]
        simp only [horc, hm, List.cons_append, List.nil_append]
      · right
        refine ⟨{ st with
          using_mp3 := true,
          mp3_segments := st.mp3_segments ++ [b] }, b, hb, rfl, rfl, rfl, ?_⟩
        unfold stepTurn
        rw [if_neg ht, if_pos hpw]
        simp only [horc, hm, List.cons_append, List.nil_append]
    · rcases hext : extract_wav_pcm wb with e | q
      · -- parse failed: downgrade
        right; right; left
        refine ⟨ht, hpt, hum, [Ev.prog (pct idx total) _, Ev.req idx true,
          Ev.parseCall idx], Or.inr rfl, ?_⟩
        rcases mp3Step_cases oracle idx { st with using_mp3 := true }
          with ⟨e', hm⟩ | ⟨b, hb, hmp3, hm⟩
        · left
          refine ⟨e', ?_⟩
          unfold stepTurn
          rw [if_neg ht, if_pos hpw]
          simp only [horc, hext, hm, List.cons_append, List.nil_append]
        · right
          refine ⟨{ st with
            using_mp3 := true,
            mp3_segments := st.mp3_segments ++ [b] }, b, hb, rfl, rfl, rfl, ?_⟩
          unfold stepTurn
          rw [if_neg ht, if_pos hpw]
          simp only [horc, hext, hm, List.cons_append, List.nil_append]
      · obtain ⟨pcm, srate, ch, bits⟩ := q
        rcases hfmt : st.fmt with _ | f
        · -- first parsed turn: adopt format
          right; left
          refine ⟨ht, hpt, hum, pcm, mkSilence srate ch bits pause, ?_⟩
          by_cases hit : idx ≠ total
          · refine ⟨{ st with
              fmt := some (srate, ch, bits),
              silence_frames := mkSilence srate ch bits pause,
              pcm_chunks := st.pcm_chunks ++
                [pcm, mkSilence srate ch bits pause] }, ?_, hum, rfl, ?_⟩
            · unfold stepTurn
              rw [if_neg ht, if_pos hpw]
              simp only [horc, hext, hfmt]
              simp [hit]
            · simp [hit]
          · refine ⟨{ st with
              fmt := some (srate, ch, bits),
              silence_frames := mkSilence srate ch bits pause,
              pcm_chunks := st.pcm_chunks ++ [pcm] }, ?_, hum, rfl, ?_⟩
            · unfold stepTurn
              rw [if_neg ht, if_pos hpw]
              simp only [horc, hext, hfmt]
              simp [hit]
            · simp [hit]
        · obtain ⟨sr, c, b⟩ := f
          by_cases heq : (srate, ch, bits) = (sr, c, b)
          · -- format matches: append
            right; left
            refine ⟨ht, hpt, hum, pcm, st.silence_frames, ?_⟩
            by_cases hit : idx ≠ total
            · refine ⟨{ st with
                pcm_chunks :=
                  st.pcm_chunks ++ [pcm, st.silence_frames] }, ?_, hum, rfl, ?_⟩
              · unfold stepTurn
                rw [if_neg ht, if_pos hpw]
                simp only [horc, hext, hfmt]
                simp [heq, hit]
              · simp [hit]
            · refine ⟨{ st with
                pcm_chunks := st.pcm_chunks ++ [pcm] },
                ?_, hum, rfl, ?_⟩
              · unfold stepTurn
                rw [if_neg ht, if_pos hpw]
                simp only [horc, hext, hfmt]
                simp [heq, hit]
              · simp [hit]
          · -- format mismatch: the raise is caught, downgrade
            right; right; left
            refine ⟨ht, hpt, hum, [Ev.prog (pct idx total) _,
              Ev.req idx true, Ev.parseCall idx], Or.inr rfl, ?_⟩
            rcases mp3Step_cases oracle idx { st with using_mp3 := true }
              with ⟨e', hm⟩ | ⟨b', hb, hmp3, hm⟩
            · left
              refine ⟨e', ?_⟩
              unfold stepTurn
              rw [if_neg ht, if_pos hpw]
              simp only [horc, hext, hfmt]
              rw [hfmt] at hm
              simp only [if_neg heq, hm, List.cons_append, List.nil_append]
            · right
              refine ⟨{ st with
                using_mp3 := true,
                mp3_segments := st.mp3_segments ++ [b'] }, b', hb,
                rfl, rfl, rfl, ?_⟩
              unfold stepTurn
              rw [if_neg ht, if_pos hpw]
              simp only [horc, hext, hfmt]
              rw [hfmt] at hm
              simp only [if_neg heq, hm, List.cons_append, List.nil_append]
  · -- MP3 path directly
    right; right; right
    refine ⟨ht, ?_, ?_⟩
    · rcases hp : prefer with _ | _
      · exact Or.inl rfl
      · right
        rcases h : st.using_mp3 <;> simp_all
    · rcases mp3Step_cases oracle idx st with ⟨e, hm⟩ | ⟨b, hb, hmp3, hm⟩
      · left
        refine ⟨e, ?_⟩
        unfold stepTurn
        rw [if_neg ht, if_neg (by simpa using hpw), hm]
      · right
        refine ⟨{ st with
          mp3_segments := st.mp3_segments ++ [b] }, b, hb,
          rfl, rfl, rfl, ?_⟩
        unfold stepTurn
        rw [if_neg ht, if_neg (by simpa using hpw), hm]

/-! Trace-predicate toolkit. -/

theorem streamOnly_append (l₁ l₂ : List Ev) :
    streamOnly (l₁ ++ l₂) = (streamOnly l₁ && streamOnly l₂) := by
  simp [streamOnly, List.all_append]

theorem noDowngrade_append (l₁ l₂ : List Ev) :
    noDowngrade (l₁ ++ l₂) = (noDowngrade l₁ && noDowngrade l₂) := by
  simp [noDowngrade, List.all_append]

theorem streamOnly_cons (e : Ev) (l : List Ev) :
    streamOnly (e :: l) =
      (!(isRawEvt e || isDowngrade e) && streamOnly l) := by
  simp [streamOnly]

theorem noDowngrade_of_streamOnly {l : List Ev} (h : streamOnly l = true) :
    noDowngrade l = true := by
  simp only [streamOnly, List.all_eq_true] at h
  simp only [noDowngrade, List.all_eq_true]
  intro e he
  have := h e he
  rcases hd : isDowngrade e <;> simp_all

theorem discipline_of_noDowngrade {l : List Ev} (h : noDowngrade l = true) :
    rawModeDiscipline l = true := by
  induction l with
  | nil => rfl
  | cons e l ih =>
    rw [noDowngrade] at h
    simp only [List.all_cons, Bool.and_eq_true] at h
    rw [rawModeDiscipline]
    have : isDowngrade e = false := by
      rcases hd : isDowngrade e <;> simp_all
    rw [this]
    simp only [Bool.false_eq_true, if_false]
    exact ih h.2

theorem discipline_append_of_noDowngrade {l₁ l₂ : List Ev}
    (h₁ : noDowngrade l₁ = true) (h₂ : rawModeDiscipline l₂ = true) :
    rawModeDiscipline (l₁ ++ l₂) = true := by
  induction l₁ with
  | nil => simpa
  | cons e l ih =>
    rw [noDowngrade] at h₁
    simp only [List.all_cons, Bool.and_eq_true] at h₁
    rw [List.cons_append, rawModeDiscipline]
    have : isDowngrade e = false := by
      rcases hd : isDowngrade e <;> simp_all
    rw [this]
    simp only [Bool.false_eq_true, if_false]
    exact ih h₁.2

theorem discipline_downgrade_cons (k : Nat) {l : List Ev}
    (hs : streamOnly l = true) :
    rawModeDiscipline (Ev.downgrade k :: l) = true := by
  rw [rawModeDiscipline]
  simpa

/-! Loop invariants. -/

/-- A job already in MP3 mode stays there, emits only stream-compatible
events, and appends exactly the MP3 response of each remaining non-empty
turn to `mp3_segments`. -/
theorem runTurns_mp3_phase (oracle : Nat → Bool → Option (List Nat))
    (prefer : Bool) (pause total : Nat) :
    ∀ (rest : List Turn) (idx : Nat) (st : AsmState),
    st.using_mp3 = true →
    streamOnly (runTurns oracle prefer pause total rest idx st).1 = true ∧
    (∀ st', (runTurns oracle prefer pause total rest idx st).2 =
        Except.ok st' →
      st'.using_mp3 = true ∧
      st'.mp3_segments = st.mp3_segments ++
        (idxListFrom rest idx).map (fun i => (oracle i false).getD [])) := by
  intro rest
  induction rest with
  | nil =>
    intro idx st hst
    constructor
    · rfl
    · intro st' h
      cases h
      simp [idxListFrom, hst]
  | cons turn rest ih =>
    intro idx st hst
    rcases stepTurn_cases oracle prefer pause total idx turn st with
      ⟨ht, hstep⟩ | ⟨ht, hpt, hum, _⟩ | ⟨ht, hpt, hum, _⟩ |
      ⟨ht, hor, hres⟩
    · -- skip
      constructor
      · simp only [runTurns, hstep]
        exact (ih (idx + 1) st hst).1
      · intro st' h
        simp only [runTurns, hstep] at h
        have h2 := (ih (idx + 1) st hst).2 st' (by
          rcases hrun : runTurns oracle prefer pause total rest (idx + 1) st
            with ⟨evs', r'⟩
          rw [hrun] at h
          simpa using h)
        simpa [idxListFrom, ht] using h2
    · rw [hum] at hst; cases hst
    · rw [hum] at hst; cases hst
    · -- direct MP3 path
      rcases hres with ⟨e, hstep⟩ | ⟨st₁, b, hb, hu, hseg, hpc, hstep⟩
      · constructor
        · simp only [runTurns, hstep]
          simp [streamOnly, isRawEvt, isDowngrade]
        · intro st' h
          simp only [runTurns, hstep] at h
          cases h
      · have hst₁ : st₁.using_mp3 = true := by rw [hu, hst]
        constructor
        · simp only [runTurns, hstep]
          rcases hrun : runTurns oracle prefer pause total rest (idx + 1) st₁
            with ⟨evs', r'⟩
          have := (ih (idx + 1) st₁ hst₁).1
          rw [hrun] at this
          simp only [streamOnly_append, this, Bool.and_true]
          simp [streamOnly, isRawEvt, isDowngrade]
        · intro st' h
          simp only [runTurns, hstep] at h
          rcases hrun : runTurns oracle prefer pause total rest (idx + 1) st₁
            with ⟨evs', r'⟩
          rw [hrun] at h
          simp only at h
          have h2 := (ih (idx + 1) st₁ hst₁).2 st' (by rw [hrun]; simpa using h)
          refine ⟨h2.1, ?_⟩
          rw [h2.2, hseg]
          simp [idxListFrom, ht, hb]


/-- A job still in Raw mode keeps the single-downgrade discipline: its
trace, followed by any stream-compatible continuation, has at most one
downgrade, after which only stream-compatible events occur. -/
theorem runTurns_discipline (oracle : Nat → Bool → Option (List Nat))
    (prefer : Bool) (pause total : Nat) :
    ∀ (rest : List Turn) (idx : Nat) (st : AsmState),
    st.using_mp3 = false →
    ∀ tl, streamOnly tl = true →
    rawModeDiscipline
      ((runTurns oracle prefer pause total rest idx st).1 ++ tl) = true := by
  intro rest
  induction rest with
  | nil =>
    intro idx st hst tl htl
    simp only [runTurns, List.nil_append]
    exact discipline_of_noDowngrade (noDowngrade_of_streamOnly htl)
  | cons turn rest ih =>
    intro idx st hst tl htl
    rcases stepTurn_cases oracle prefer pause total idx turn st with
      ⟨ht, hstep⟩ | ⟨ht, hpt, hum, pcm, sil, st', hstep, hu', hseg', hpc'⟩ |
      ⟨ht, hpt, hum, pre, hpre, hres⟩ | ⟨ht, hor, hres⟩
    · simp only [runTurns, hstep]
      exact ih (idx + 1) st hst tl htl
    · -- WAV success: stays raw
      simp only [runTurns, hstep]
      rcases hrun : runTurns oracle prefer pause total rest (idx + 1) st'
        with ⟨evs', r'⟩
      simp only
      have hnd : noDowngrade (Ev.prog (pct idx total)
          s!"Synthesizing turn {idx}/{total} ({turn.speaker})" ::
          Ev.req idx true :: Ev.parseCall idx :: Ev.pcmApp idx ::
          (if idx ≠ total then [Ev.silApp idx] else [])) = true := by
        by_cases hit : idx ≠ total <;>
          simp [hit, noDowngrade, isDowngrade]
      rw [List.append_assoc]
      apply discipline_append_of_noDowngrade hnd
      have := ih (idx + 1) st' hu' tl htl
      rw [hrun] at this
      exact this
    · -- downgrade during this turn
      have hpresplit : noDowngrade pre = true ∧
          (pre.length = 2 ∨ pre.length = 3) := by
        rcases hpre with h | h <;> subst h <;>
          simp [noDowngrade, isDowngrade]
      rcases hres with ⟨e, hstep⟩ | ⟨st', b, hb, hu', hseg', hpc', hstep⟩
      · simp only [runTurns, hstep]
        rw [List.append_assoc]
        apply discipline_append_of_noDowngrade hpresplit.1
        simp only [List.cons_append, List.nil_append]
        apply discipline_downgrade_cons idx
        simp [streamOnly_cons, htl, isRawEvt, isDowngrade]
      · simp only [runTurns, hstep]
        rcases hrun : runTurns oracle prefer pause total rest (idx + 1) st'
          with ⟨evs', r'⟩
        simp only
        have hso := (runTurns_mp3_phase oracle prefer pause total rest
          (idx + 1) st' hu').1
        rw [hrun] at hso
        simp only [List.append_assoc, List.cons_append, List.nil_append]
        apply discipline_append_of_noDowngrade hpresplit.1
        apply discipline_downgrade_cons idx
        simp [streamOnly_cons, streamOnly_append, hso, htl,
          isRawEvt, isDowngrade]
    · -- direct MP3 path while prefer_wav is false
      rcases hres with ⟨e, hstep⟩ | ⟨st', b, hb, hu', hseg', hpc', hstep⟩
      · simp only [runTurns, hstep]
        apply discipline_of_noDowngrade
        simp only [noDowngrade_append, noDowngrade_of_streamOnly htl,
          Bool.and_true]
        simp [noDowngrade, isDowngrade]
      · simp only [runTurns, hstep]
        rcases hrun : runTurns oracle prefer pause total rest (idx + 1) st'
          with ⟨evs', r'⟩
        simp only
        have hst' : st'.using_mp3 = false := by rw [hu', hst]
        have := ih (idx + 1) st' hst' tl htl
        rw [hrun] at this
        rw [List.append_assoc]
        apply discipline_append_of_noDowngrade
          (by simp [noDowngrade, isDowngrade])
        exact this

/-- C4: within every single job — for every oracle, script, pause and
container preference — the mode flag transitions at most once, from Raw
to Stream and never back: the job trace contains at most one downgrade
event, and after it no raw-container request is issued, the raw parser
is never invoked again, and no silence is appended. -/
theorem claim_C4_single_downgrade (oracle : Nat → Bool → Option (List Nat))
    (script : List Turn) (pause : Nat) (prefer : Bool) :
    rawModeDiscipline
      (synthesize_episode_basic oracle script pause prefer).1 = true := by
  unfold synthesize_episode_basic
  by_cases hs : script = []
  · rw [if_pos hs]
    rfl
  · rw [if_neg hs]
    rcases hrun : runTurns oracle prefer pause script.length script 1
      ⟨[], [], none, false, []⟩ with ⟨evs, r⟩
    have hdisc := runTurns_discipline oracle prefer pause script.length
      script 1 ⟨[], [], none, false, []⟩ rfl
    rw [hrun] at hdisc
    rcases r with e | st
    · simpa using hdisc [] rfl
    · simp only
      by_cases hm : st.using_mp3
      · rw [if_pos hm]
        exact hdisc _ (by simp [streamOnly, isRawEvt, isDowngrade])
      · rw [if_neg hm]
        rcases hfmt : st.fmt with _ | ⟨sr, channels, bps⟩
        · simp only [hfmt]
          simpa using hdisc [] rfl
        · simp only [hfmt]
          rcases hb : build_wav st.pcm_chunks.flatten sr channels bps
            with _ | w
          · simp only [hb]
            simpa using hdisc [] rfl
          · simp only [hb]
            exact hdisc [Ev.prog 95 "Finalizing WAV file",
              Ev.prog 100 "Done"] (by
                simp [streamOnly, isRawEvt, isDowngrade])

/-! Claims C1 and C2: divergences between the code and the specified
error handling. -/

/-- Oracle for the C1 scenario: turn 1 returns a 10 Hz mono 16-bit WAV,
turn 2 returns a WAV whose sample rate differs (20 Hz), and any MP3
request returns a valid MPEG frame. -/
def mismatchOracle : Nat → Bool → Option (List Nat) := fun i w =>
  if w then
    (if i = 1 then build_wav [1, 2] 10 1 16 else build_wav [3, 4] 20 1 16)
  else
    some [255, 251, 9, 9]

/-- Two-turn script for the C1 scenario. -/
def mismatchScript : List Turn := [⟨"host", "Hello"⟩, ⟨"guest", "Hi"⟩]

/-- C1: evaluated at a job whose second turn's format differs from the
established job format, the code does NOT fail: the mismatch raise on
source line 141 is caught by the `except BasicAudioError` of line 146,
so the job downgrades to Stream mode, issues a stream request for turn 2,
and returns the MP3 concatenation — the accumulated raw payload is
silently discarded rather than the job aborting with a format error. -/
theorem claim_C1_mismatch_downgrades :
    (synthesize_episode_basic mismatchOracle mismatchScript 100 true).2 =
      Except.ok ([255, 251, 9, 9], "mp3") ∧
    Ev.downgrade 2 ∈
      (synthesize_episode_basic mismatchOracle mismatchScript 100 true).1 ∧
    Ev.req 2 false ∈
      (synthesize_episode_basic mismatchOracle mismatchScript 100 true).1 := by
  decide

/-- C2: evaluated at a non-empty script whose only turn is whitespace,
the code issues no network call and raises no `BasicAudioError`: the
`if not script` guard does not fire, every turn is skipped, and the final
WAV merge calls `_build_wav(b'', None, None, None)`, which dies with an
uncaught `TypeError` — not the specified `EmptyScript` error. -/
theorem claim_C2_all_empty_typeerror :
    synthesize_episode_basic (fun _ _ => none) [⟨"host", "   "⟩] 300 true =
      ([], Except.error RunError.pyTypeError) := by
  decide

/-! Decomposition of the loop and per-turn event indexing. -/

theorem runTurns_cons_error (oracle : Nat → Bool → Option (List Nat))
    (prefer : Bool) (pause total : Nat) (turn : Turn) (rest : List Turn)
    (idx : Nat) (st : AsmState) (e : RunError)
    (h : (stepTurn oracle prefer pause total idx turn st).2 =
      Except.error e) :
    runTurns oracle prefer pause total (turn :: rest) idx st =
      ((stepTurn oracle prefer pause total idx turn st).1,
        Except.error e) := by
  rw [runTurns]
  rcases hs : stepTurn oracle prefer pause total idx turn st with ⟨evs, r⟩
  rw [hs] at h
  simp only at h
  subst h
  rfl

theorem runTurns_cons_ok (oracle : Nat → Bool → Option (List Nat))
    (prefer : Bool) (pause total : Nat) (turn : Turn) (rest : List Turn)
    (idx : Nat) (st : AsmState) (st' : AsmState)
    (h : (stepTurn oracle prefer pause total idx turn st).2 =
      Except.ok st') :
    runTurns oracle prefer pause total (turn :: rest) idx st =
      ((stepTurn oracle prefer pause total idx turn st).1 ++
        (runTurns oracle prefer pause total rest (idx + 1) st').1,
        (runTurns oracle prefer pause total rest (idx + 1) st').2) := by
  rw [runTurns]
  rcases hs : stepTurn oracle prefer pause total idx turn st with ⟨evs, r⟩
  rw [hs] at h
  simp only at h
  subst h
  dsimp only

/-- Every indexed event emitted while handling one turn carries that
turn's index. -/
theorem stepTurn_event_idx (oracle : Nat → Bool → Option (List Nat))
    (prefer : Bool) (pause total idx : Nat) (turn : Turn) (st : AsmState)
    (i : Nat) :
    (Ev.pcmApp i ∈ (stepTurn oracle prefer pause total idx turn st).1 ∨
     Ev.silApp i ∈ (stepTurn oracle prefer pause total idx turn st).1 ∨
     Ev.downgrade i ∈ (stepTurn oracle prefer pause total idx turn st).1 ∨
     Ev.mp3App i ∈ (stepTurn oracle prefer pause total idx turn st).1 ∨
     (∃ w, Ev.req i w ∈ (stepTurn oracle prefer pause total idx turn st).1))
    → i = idx := by
  intro h
  rcases stepTurn_cases oracle prefer pause total idx turn st with
    ⟨ht, hstep⟩ | ⟨ht, hpt, hum, pcm, sil, st', hstep, hu', hseg', hpc'⟩ |
    ⟨ht, hpt, hum, pre, hpre, hres⟩ | ⟨ht, hor, hres⟩
  · rw [hstep] at h
    simp at h
  · rw [hstep] at h
    by_cases hit : idx ≠ total <;>
      rcases h with h | h | h | h | ⟨w, h⟩ <;>
      simp [hit] at h <;> omega
  · rcases hres with ⟨e, hstep⟩ | ⟨st', b, hb, hu', hseg', hpc', hstep⟩ <;>
      rw [hstep] at h <;>
      rcases hpre with hp | hp <;> subst hp <;>
      rcases h with h | h | h | h | ⟨w, h⟩ <;>
      simp at h <;> omega
  · rcases hres with ⟨e, hstep⟩ | ⟨st', b, hb, hu', hseg', hpc', hstep⟩ <;>
      rw [hstep] at h <;>
      rcases h with h | h | h | h | ⟨w, h⟩ <;>
      simp at h <;> omega

/-- Every indexed event in the trace of the loop started at `idx` carries
a turn index `≥ idx`. -/
theorem runTurns_event_ge (oracle : Nat → Bool → Option (List Nat))
    (prefer : Bool) (pause total : Nat) :
    ∀ (rest : List Turn) (idx : Nat) (st : AsmState) (i : Nat),
    (Ev.pcmApp i ∈ (runTurns oracle prefer pause total rest idx st).1 ∨
     Ev.silApp i ∈ (runTurns oracle prefer pause total rest idx st).1 ∨
     Ev.downgrade i ∈ (runTurns oracle prefer pause total rest idx st).1 ∨
     Ev.mp3App i ∈ (runTurns oracle prefer pause total rest idx st).1 ∨
     (∃ w, Ev.req i w ∈
       (runTurns oracle prefer pause total rest idx st).1))
    → idx ≤ i := by
  intro rest
  induction rest with
  | nil =>
    intro idx st i h
    simp [runTurns] at h
  | cons turn rest ih =>
    intro idx st i h
    rcases hr : (stepTurn oracle prefer pause total idx turn st).2 with e | st'
    · rw [runTurns_cons_error oracle prefer pause total turn rest idx st e hr]
        at h
      simp only at h
      exact Nat.le_of_eq (stepTurn_event_idx oracle prefer pause total idx
        turn st i h).symm
    · rw [runTurns_cons_ok oracle prefer pause total turn rest idx st st' hr]
        at h
      simp only [List.mem_append] at h
      have hsplit : (Ev.pcmApp i ∈
            (stepTurn oracle prefer pause total idx turn st).1 ∨
          Ev.silApp i ∈ (stepTurn oracle prefer pause total idx turn st).1 ∨
          Ev.downgrade i ∈
            (stepTurn oracle prefer pause total idx turn st).1 ∨
          Ev.mp3App i ∈ (stepTurn oracle prefer pause total idx turn st).1 ∨
          (∃ w, Ev.req i w ∈
            (stepTurn oracle prefer pause total idx turn st).1)) ∨
          (Ev.pcmApp i ∈
            (runTurns oracle prefer pause total rest (idx + 1) st').1 ∨
          Ev.silApp i ∈
            (runTurns oracle prefer pause total rest (idx + 1) st').1 ∨
          Ev.downgrade i ∈
            (runTurns oracle prefer pause total rest (idx + 1) st').1 ∨
          Ev.mp3App i ∈
            (runTurns oracle prefer pause total rest (idx + 1) st').1 ∨
          (∃ w, Ev.req i w ∈
            (runTurns oracle prefer pause total rest (idx + 1) st').1)) := by
        tauto
      rcases hsplit with h' | h'
      · exact Nat.le_of_eq (stepTurn_event_idx oracle prefer pause total idx
          turn st i h').symm
      · exact Nat.le_of_succ_le (ih (idx + 1) st' i h')

/-! Claim C6: silence placement. -/

/-- In one iteration, a silence append occurs exactly when a sample
append occurs and the turn is not the (index-)last of the script. -/
theorem stepTurn_sil_iff (oracle : Nat → Bool → Option (List Nat))
    (prefer : Bool) (pause total idx : Nat) (turn : Turn) (st : AsmState)
    (i : Nat) :
    (Ev.silApp i ∈ (stepTurn oracle prefer pause total idx turn st).1 ↔
      (Ev.pcmApp i ∈ (stepTurn oracle prefer pause total idx turn st).1 ∧
        i ≠ total)) := by
  rcases stepTurn_cases oracle prefer pause total idx turn st with
    ⟨ht, hstep⟩ | ⟨ht, hpt, hum, pcm, sil, st', hstep, hu', hseg', hpc'⟩ |
    ⟨ht, hpt, hum, pre, hpre, hres⟩ | ⟨ht, hor, hres⟩
  · rw [hstep]
    simp
  · rw [hstep]
    by_cases hit : idx ≠ total
    · simp only [hit, reduceIte]
      by_cases hi : i = idx
      · subst hi
        simp [hit]
      · simp [hi]
    · simp only [hit, reduceIte]
      by_cases hi : i = idx
      · subst hi
        simp only [not_not] at hit
        simp [hit]
      · simp [hi]
  · rcases hres with ⟨e, hstep⟩ | ⟨st', b, hb, hu', hseg', hpc', hstep⟩ <;>
      rw [hstep] <;>
      rcases hpre with hp | hp <;> subst hp <;> simp
  · rcases hres with ⟨e, hstep⟩ | ⟨st', b, hb, hu', hseg', hpc', hstep⟩ <;>
      rw [hstep] <;> simp

/-- Along the whole loop, a silence append for turn `i` occurs exactly
when a sample append for turn `i` occurs and `i` is not the last index. -/
theorem runTurns_sil_iff (oracle : Nat → Bool → Option (List Nat))
    (prefer : Bool) (pause total : Nat) :
    ∀ (rest : List Turn) (idx : Nat) (st : AsmState) (i : Nat),
    (Ev.silApp i ∈ (runTurns oracle prefer pause total rest idx st).1 ↔
      (Ev.pcmApp i ∈ (runTurns oracle prefer pause total rest idx st).1 ∧
        i ≠ total)) := by
  intro rest
  induction rest with
  | nil =>
    intro idx st i
    simp [runTurns]
  | cons turn rest ih =>
    intro idx st i
    rcases hr : (stepTurn oracle prefer pause total idx turn st).2 with e | st'
    · rw [runTurns_cons_error oracle prefer pause total turn rest idx st e hr]
      exact stepTurn_sil_iff oracle prefer pause total idx turn st i
    · rw [runTurns_cons_ok oracle prefer pause total turn rest idx st st' hr]
      simp only [List.mem_append]
      constructor
      · rintro (h | h)
        · have := (stepTurn_sil_iff oracle prefer pause total idx turn
            st i).mp h
          exact ⟨Or.inl this.1, this.2⟩
        · have := (ih (idx + 1) st' i).mp h
          exact ⟨Or.inr this.1, this.2⟩
      · rintro ⟨h | h, hne⟩
        · exact Or.inl ((stepTurn_sil_iff oracle prefer pause total idx turn
            st i).mpr ⟨h, hne⟩)
        · exact Or.inr ((ih (idx + 1) st' i).mpr ⟨h, hne⟩)

/-- C6 (amended and happy path): in Raw mode one silence template copy is
appended after each successfully parsed turn except the turn whose index
equals the script length (the literal last turn — NOT the last non-empty
turn: trailing empty-text turns still leave a silence block after the
final non-empty turn); and for the two-turn happy path the output payload
is turn-1 samples, one pause-length silence block, then turn-2 samples. -/
theorem claim_C6_silence_placement :
    (∀ (oracle : Nat → Bool → Option (List Nat)) (script : List Turn)
      (pause : Nat) (prefer : Bool) (i : Nat),
      Ev.silApp i ∈ (synthesize_episode_basic oracle script pause prefer).1 ↔
      (Ev.pcmApp i ∈
        (synthesize_episode_basic oracle script pause prefer).1 ∧
        i ≠ script.length)) ∧
    (∀ (p1 p2 : List Nat) (sr ch bits pause : Nat) (t1 t2 : Turn)
      (w1 w2 : List Nat),
      pyStrip t1.text ≠ "" → pyStrip t2.text ≠ "" →
      build_wav p1 sr ch bits = some w1 →
      build_wav p2 sr ch bits = some w2 →
      1 ≤ p1.length → 1 ≤ p2.length →
      (synthesize_episode_basic
        (fun i _ => if i = 1 then some w1 else some w2)
        [t1, t2] pause true).2 =
        (build_wav (p1 ++ (mkSilence sr ch bits pause ++ p2))
            sr ch bits).elim
          (Except.error RunError.pyStructError)
          (fun w => Except.ok (w, "wav"))) := by
  constructor
  · intro oracle script pause prefer i
    unfold synthesize_episode_basic
    by_cases hs : script = []
    · rw [if_pos hs]
      simp
    · rw [if_neg hs]
      rcases hrun : runTurns oracle prefer pause script.length script 1
        ⟨[], [], none, false, []⟩ with ⟨evs, r⟩
      have hiff := runTurns_sil_iff oracle prefer pause script.length
        script 1 ⟨[], [], none, false, []⟩ i
      rw [hrun] at hiff
      rcases r with e | st
      · exact hiff
      · simp only
        by_cases hm : st.using_mp3
        · rw [if_pos hm]
          simpa using hiff
        · rw [if_neg hm]
          rcases hfmt : st.fmt with _ | ⟨sr, channels, bps⟩
          · simp only [hfmt]
            exact hiff
          · simp only [hfmt]
            rcases hb : build_wav st.pcm_chunks.flatten sr channels bps
              with _ | w
            · simp only [hb]
              exact hiff
            · simp only [hb]
              simpa using hiff
  · intro p1 p2 sr ch bits pause t1 t2 w1 w2 h1 h2 hw1 hw2 hp1 hp2
    have hx1 : extract_wav_pcm w1 = Except.ok (p1, sr, ch, bits) :=
      extract_build_roundtrip p1 sr ch bits w1 hw1 hp1
    have hx2 : extract_wav_pcm w2 = Except.ok (p2, sr, ch, bits) :=
      extract_build_roundtrip p2 sr ch bits w2 hw2 hp2
    have e1 : stepTurn (fun i _ => if i = 1 then some w1 else some w2)
        true pause 2 1 t1 ⟨[], [], none, false, []⟩ =
        ([Ev.prog (pct 1 2) s!"Synthesizing turn {1}/{2} ({t1.speaker})",
          Ev.req 1 true, Ev.parseCall 1, Ev.pcmApp 1, Ev.silApp 1],
          Except.ok ⟨[p1, mkSilence sr ch bits pause], [],
            some (sr, ch, bits), false, mkSilence sr ch bits pause⟩) := by
      unfold stepTurn
      rw [if_neg h1]
      simp [hx1]
    have e2 : stepTurn (fun i _ => if i = 1 then some w1 else some w2)
        true pause 2 2 t2 ⟨[p1, mkSilence sr ch bits pause], [],
          some (sr, ch, bits), false, mkSilence sr ch bits pause⟩ =
        ([Ev.prog (pct 2 2) s!"Synthesizing turn {2}/{2} ({t2.speaker})",
          Ev.req 2 true, Ev.parseCall 2, Ev.pcmApp 2],
          Except.ok ⟨[p1, mkSilence sr ch bits pause, p2], [],
            some (sr, ch, bits), false, mkSilence sr ch bits pause⟩) := by
      unfold stepTurn
      rw [if_neg h2]
      simp [hx2]
    unfold synthesize_episode_basic
    rw [if_neg (by simp : ¬([t1, t2] : List Turn) = [])]
    have hlen : ([t1, t2] : List Turn).length = 2 := rfl
    rw [hlen]
    rw [runTurns_cons_ok _ _ _ _ _ _ _ _
      ⟨[p1, mkSilence sr ch bits pause], [], some (sr, ch, bits), false,
        mkSilence sr ch bits pause⟩ (by rw [e1])]
    rw [runTurns_cons_ok _ _ _ _ _ _ _ _
      ⟨[p1, mkSilence sr ch bits pause, p2], [], some (sr, ch, bits), false,
        mkSilence sr ch bits pause⟩ (by rw [e2])]
    simp only [runTurns]
    rcases hb : build_wav (p1 ++ (mkSilence sr ch bits pause ++ p2))
      sr ch bits with _ | w
    · simp only [List.flatten, List.append_nil, hb]
      rfl
    · simp only [List.flatten, List.append_nil, hb]
      rfl

/-- Oracle for the C6 counterexample: every WAV request returns a fixed
10 Hz mono 16-bit container with payload `[1, 2]`. -/
def trailOracle : Nat → Bool → Option (List Nat) := fun _ w =>
  if w then build_wav [1, 2] 10 1 16 else none

/-- Script whose final turn is whitespace-only. -/
def trailScript : List Turn := [⟨"host", "Hi"⟩, ⟨"guest", " "⟩]

/-- C6 (counterexample): for a script whose last non-empty turn is
followed only by empty-text turns, the silence check `idx != total_turns`
compares against the raw script length, so one silence block IS appended
after the final non-empty turn: the output payload is
`[1, 2] ++ [0, 0]`, not `[1, 2]`. -/
theorem claim_C6_counterexample :
    (synthesize_episode_basic trailOracle trailScript 100 true).2 =
      Except.ok ((build_wav [1, 2, 0, 0] 10 1 16).getD [], "wav") ∧
    (synthesize_episode_basic trailOracle trailScript 100 true).2 ≠
      Except.ok ((build_wav [1, 2] 10 1 16).getD [], "wav") := by
  decide

/-- C6 (witness): the amended statement at concrete inputs — the
silence-placement equivalence at turn 1 of a concrete job, and the
two-turn happy-path payload `p1 ++ silence ++ p2`. -/
theorem claim_C6_witness :
    (Ev.silApp 1 ∈
      (synthesize_episode_basic trailOracle trailScript 100 true).1 ↔
      (Ev.pcmApp 1 ∈
        (synthesize_episode_basic trailOracle trailScript 100 true).1 ∧
        (1 : Nat) ≠ trailScript.length)) ∧
    (synthesize_episode_basic
      (fun i _ => if i = 1 then some ((build_wav [1, 2] 10 1 16).getD [])
        else some ((build_wav [3, 4] 10 1 16).getD []))
      [⟨"host", "Hello"⟩, ⟨"guest", "Hi"⟩] 100 true).2 =
      (build_wav ([1, 2] ++ (mkSilence 10 1 16 100 ++ [3, 4]))
          10 1 16).elim
        (Except.error RunError.pyStructError)
        (fun w => Except.ok (w, "wav")) :=
  ⟨claim_C6_silence_placement.1 trailOracle trailScript 100 true 1,
    claim_C6_silence_placement.2 [1, 2] [3, 4] 10 1 16 100
      ⟨"host", "Hello"⟩ ⟨"guest", "Hi"⟩ _ _
      (by decide) (by decide) rfl rfl (by decide) (by decide)⟩

/-! Progress-percentage toolkit (claims C7 and C8). -/

theorem percents_append (l₁ l₂ : List Ev) :
    percents (l₁ ++ l₂) = percents l₁ ++ percents l₂ := by
  simp [percents]

theorem pct_mono {i j total : Nat} (h : i ≤ j) : pct i total ≤ pct j total :=
  Nat.div_le_div_right (Nat.mul_le_mul_left 90 (by omega))

theorem pct_le_90 {j total : Nat} (hj : j ≤ total) (ht : 0 < total) :
    pct j total ≤ 90 := by
  unfold pct
  have : 90 * (j - 1) ≤ 90 * total := Nat.mul_le_mul_left 90 (by omega)
  calc 90 * (j - 1) / total ≤ 90 * total / total :=
        Nat.div_le_div_right this
    _ = 90 := by
        rw [Nat.mul_div_cancel _ ht]

theorem pct_one (total : Nat) : pct 1 total = 0 := by
  simp [pct]

theorem sorted_of_all_eq {l : List Nat} {c : Nat} (h : ∀ p ∈ l, p = c) :
    l.Sorted (· ≤ ·) := by
  induction l with
  | nil => exact List.sorted_nil
  | cons a l ih =>
    rw [List.sorted_cons]
    refine ⟨?_, ih fun p hp => h p (List.mem_cons_of_mem a hp)⟩
    intro b hb
    rw [h a (List.mem_cons_self a l), h b (List.mem_cons_of_mem a hb)]

/-- Every progress percentage emitted while handling one turn is the
turn's own `pct idx total`. -/
theorem stepTurn_percents (oracle : Nat → Bool → Option (List Nat))
    (prefer : Bool) (pause total idx : Nat) (turn : Turn) (st : AsmState) :
    ∀ p ∈ percents (stepTurn oracle prefer pause total idx turn st).1,
    p = pct idx total := by
  intro p hp
  rcases stepTurn_cases oracle prefer pause total idx turn st with
    ⟨ht, hstep⟩ | ⟨ht, hpt, hum, pcm, sil, st', hstep, hu', hseg', hpc'⟩ |
    ⟨ht, hpt, hum, pre, hpre, hres⟩ | ⟨ht, hor, hres⟩
  · rw [hstep] at hp
    simp [percents] at hp
  · rw [hstep] at hp
    by_cases hit : idx ≠ total <;> simp [percents, hit] at hp <;> omega
  · rcases hres with ⟨e, hstep⟩ | ⟨st', b, hb, hu', hseg', hpc', hstep⟩ <;>
      rw [hstep] at hp <;>
      rcases hpre with hpr | hpr <;> subst hpr <;>
      simp [percents, percents_append] at hp <;> omega
  · rcases hres with ⟨e, hstep⟩ | ⟨st', b, hb, hu', hseg', hpc', hstep⟩ <;>
      rw [hstep] at hp <;> simp [percents] at hp <;> omega

/-- A non-empty turn's iteration starts with the progress call emitted
before the network request. -/
theorem stepTurn_head (oracle : Nat → Bool → Option (List Nat))
    (prefer : Bool) (pause total idx : Nat) (turn : Turn) (st : AsmState)
    (h : pyStrip turn.text ≠ "") :
    ∃ m tl, (stepTurn oracle prefer pause total idx turn st).1 =
      Ev.prog (pct idx total) m :: tl := by
  rcases stepTurn_cases oracle prefer pause total idx turn st with
    ⟨ht, hstep⟩ | ⟨ht, hpt, hum, pcm, sil, st', hstep, hu', hseg', hpc'⟩ |
    ⟨ht, hpt, hum, pre, hpre, hres⟩ | ⟨ht, hor, hres⟩
  · exact absurd ht h
  · exact ⟨_, _, by rw [hstep]⟩
  · rcases hres with ⟨e, hstep⟩ | ⟨st', b, hb, hu', hseg', hpc', hstep⟩ <;>
      rcases hpre with hpr | hpr <;> subst hpr <;>
      exact ⟨_, _, by rw [hstep]; rfl⟩
  · rcases hres with ⟨e, hstep⟩ | ⟨st', b, hb, hu', hseg', hpc', hstep⟩ <;>
      exact ⟨_, _, by rw [hstep]⟩

/-- Inversion of a completed job: the loop finished, the trace is the
loop trace followed by the 95% and terminal 100% progress calls, and the
output extension reflects the final mode. -/
theorem synth_ok_inv {oracle : Nat → Bool → Option (List Nat)}
    {script : List Turn} {pause : Nat} {prefer : Bool} {b : List Nat}
    {fn : String}
    (h : (synthesize_episode_basic oracle script pause prefer).2 =
      Except.ok (b, fn)) :
    script ≠ [] ∧ ∃ evs st m,
      runTurns oracle prefer pause script.length script 1
        ⟨[], [], none, false, []⟩ = (evs, Except.ok st) ∧
      (synthesize_episode_basic oracle script pause prefer).1 =
        evs ++ [Ev.prog 95 m, Ev.prog 100 "Done"] ∧
      (fn = "wav" → st.using_mp3 = false) ∧
      (fn = "mp3" → st.using_mp3 = true ∧ b = st.mp3_segments.flatten) := by
  unfold synthesize_episode_basic at h
  by_cases hs : script = []
  · rw [if_pos hs] at h
    cases h
  · rw [if_neg hs] at h
    rcases hrun : runTurns oracle prefer pause script.length script 1
      ⟨[], [], none, false, []⟩ with ⟨evs, r⟩
    rw [hrun] at h
    rcases r with e | st
    · cases h
    · simp only at h
      have htr : ∀ (tail : List Ev) (res : Except RunError (List Nat × String)),
          (match (evs, Except.ok st) with
            | (evs, Except.error e) => (evs, Except.error e)
            | (evs, Except.ok st) =>
              if st.using_mp3 = true then
                (evs ++ [Ev.prog 95 "Merging MP3 segments",
                  Ev.prog 100 "Done"],
                  Except.ok (st.mp3_segments.flatten, "mp3"))
              else
                match st.fmt with
                | none => (evs, Except.error RunError.pyTypeError)
                | some (sr, channels, bps) =>
                  match build_wav st.pcm_chunks.flatten sr channels bps with
                  | none => (evs, Except.error RunError.pyStructError)
                  | some w =>
                    (evs ++ [Ev.prog 95 "Finalizing WAV file",
                      Ev.prog 100 "Done"], Except.ok (w, "wav"))) =
            (tail, res) →
          (synthesize_episode_basic oracle script pause prefer).1 = tail := by
        intro tail res hmatch
        unfold synthesize_episode_basic
        rw [if_neg hs, hrun]
        dsimp only at hmatch ⊢
        rw [hmatch]
      by_cases hm : st.using_mp3
      · rw [if_pos hm] at h
        simp only [Except.ok.injEq, Prod.mk.injEq] at h
        refine ⟨hs, evs, st, "Merging MP3 segments", rfl, ?_, ?_, ?_⟩
        · apply htr _ (Except.ok (st.mp3_segments.flatten, "mp3"))
          dsimp only
          rw [if_pos hm]
        · intro hw
          rw [← h.2] at hw
          exact absurd hw (by decide)
        · intro _
          exact ⟨hm, h.1.symm⟩
      · rw [if_neg hm] at h
        rcases hfmt : st.fmt with _ | ⟨sr, channels, bps⟩
        · rw [hfmt] at h
          simp at h
        · rw [hfmt] at h
          dsimp only at h
          rcases hb : build_wav st.pcm_chunks.flatten sr channels bps
            with _ | w
          · rw [hb] at h
            simp at h
          · rw [hb] at h
            simp only [Except.ok.injEq, Prod.mk.injEq] at h
            refine ⟨hs, evs, st, "Finalizing WAV file", rfl, ?_, ?_, ?_⟩
            · apply htr _ (Except.ok (w, "wav"))
              dsimp only
              rw [if_neg hm, hfmt]
              dsimp only
              rw [hb]
            · intro _
              simpa using hm
            · intro hw
              rw [← h.2] at hw
              exact absurd hw (by decide)

/-- Every loop percentage is some turn's `pct j total` with `j` in range,
and the loop percentages are non-decreasing. -/
theorem runTurns_percents_inv (oracle : Nat → Bool → Option (List Nat))
    (prefer : Bool) (pause total : Nat) :
    ∀ (rest : List Turn) (idx : Nat) (st : AsmState),
    (∀ p ∈ percents (runTurns oracle prefer pause total rest idx st).1,
      ∃ j, idx ≤ j ∧ j < idx + rest.length ∧ p = pct j total) ∧
    (percents
      (runTurns oracle prefer pause total rest idx st).1).Sorted (· ≤ ·) := by
  intro rest
  induction rest with
  | nil =>
    intro idx st
    constructor
    · intro p hp
      simp [runTurns, percents] at hp
    · simp [runTurns, percents]
  | cons turn rest ih =>
    intro idx st
    rcases hr : (stepTurn oracle prefer pause total idx turn st).2 with e | st'
    · rw [runTurns_cons_error oracle prefer pause total turn rest idx st e hr]
      constructor
      · intro p hp
        exact ⟨idx, Nat.le_refl idx, by simp,
          stepTurn_percents oracle prefer pause total idx turn st p hp⟩
      · exact sorted_of_all_eq
          (stepTurn_percents oracle prefer pause total idx turn st)
    · rw [runTurns_cons_ok oracle prefer pause total turn rest idx st st' hr]
      rw [percents_append]
      constructor
      · intro p hp
        rcases List.mem_append.mp hp with hp | hp
        · exact ⟨idx, Nat.le_refl idx, by simp,
            stepTurn_percents oracle prefer pause total idx turn st p hp⟩
        · obtain ⟨j, hj1, hj2, hj3⟩ := (ih (idx + 1) st').1 p hp
          exact ⟨j, by omega, by simp; omega, hj3⟩
      · refine List.pairwise_append.mpr ⟨sorted_of_all_eq
          (stepTurn_percents oracle prefer pause total idx turn st),
          (ih (idx + 1) st').2, ?_⟩
        intro a ha b hb
        rw [stepTurn_percents oracle prefer pause total idx turn st a ha]
        obtain ⟨j, hj1, _, hj3⟩ := (ih (idx + 1) st').1 b hb
        rw [hj3]
        exact pct_mono (by omega)

/-- When the first turn of the remaining script is non-empty, the loop
trace's first percentage is that turn's `pct`. -/
theorem runTurns_head_pct (oracle : Nat → Bool → Option (List Nat))
    (prefer : Bool) (pause total : Nat) (t1 : Turn) (ts : List Turn)
    (idx : Nat) (st : AsmState) (h : pyStrip t1.text ≠ "") :
    ∃ tl, percents
      (runTurns oracle prefer pause total (t1 :: ts) idx st).1 =
      pct idx total :: tl := by
  obtain ⟨m, tl', hstep⟩ := stepTurn_head oracle prefer pause total idx t1
    st h
  rcases hr : (stepTurn oracle prefer pause total idx t1 st).2 with e | st'
  · rw [runTurns_cons_error oracle prefer pause total t1 ts idx st e hr,
      hstep]
    exact ⟨percents tl', by simp [percents]⟩
  · rw [runTurns_cons_ok oracle prefer pause total t1 ts idx st st' hr,
      hstep]
    refine ⟨percents (tl' ++
      (runTurns oracle prefer pause total ts (idx + 1) st').1), ?_⟩
    simp [percents]

/-- Last element of an append with a non-empty right part. -/
theorem getLast?_append_right (l₁ : List Nat) (a b : Nat) :
    (l₁ ++ [a, b]).getLast? = some b := by
  rw [List.getLast?_append]
  rfl

/-- C7 (amended): for every job that runs to completion, the progress
percentages are non-decreasing, all lie in [0, 100], the sequence ends
with exactly one terminal call at 100, and — when the script's FIRST
turn has non-empty text — the first call is at percent 0.  (When leading
turns are empty the first call is at `⌊90(i₀−1)/n⌋` for the first
non-empty index `i₀`, which is not 0.) -/
theorem claim_C7_progress (oracle : Nat → Bool → Option (List Nat))
    (script : List Turn) (pause : Nat) (prefer : Bool) (b : List Nat)
    (fn : String)
    (h : (synthesize_episode_basic oracle script pause prefer).2 =
      Except.ok (b, fn)) :
    ((percents
       (synthesize_episode_basic oracle script pause prefer).1).Sorted
        (· ≤ ·)) ∧
    (∀ p ∈ percents (synthesize_episode_basic oracle script pause prefer).1,
      p ≤ 100) ∧
    ((percents
       (synthesize_episode_basic oracle script pause prefer).1).getLast? =
      some 100) ∧
    ((percents
       (synthesize_episode_basic oracle script pause prefer).1).count 100 =
      1) ∧
    (∀ t1 ts, script = t1 :: ts → pyStrip t1.text ≠ "" →
      (percents
        (synthesize_episode_basic oracle script pause prefer).1).head? =
        some 0) := by
  obtain ⟨hs, evs, st, m, hrun, htr, _, _⟩ := synth_ok_inv h
  have hn : 0 < script.length := List.length_pos.mpr hs
  have hinv := runTurns_percents_inv oracle prefer pause script.length
    script 1 ⟨[], [], none, false, []⟩
  rw [hrun] at hinv
  simp only at hinv
  have hb90 : ∀ p ∈ percents evs, p ≤ 90 := by
    intro p hp
    obtain ⟨j, hj1, hj2, hj3⟩ := hinv.1 p hp
    rw [hj3]
    exact pct_le_90 (by omega) hn
  rw [htr, percents_append]
  have hp95 : percents [Ev.prog 95 m, Ev.prog 100 "Done"] = [95, 100] := by
    simp [percents]
  rw [hp95]
  refine ⟨?_, ?_, ?_, ?_, ?_⟩
  · refine List.pairwise_append.mpr ⟨hinv.2, by simp, ?_⟩
    intro a ha c hc
    have := hb90 a ha
    simp at hc
    omega
  · intro p hp
    rcases List.mem_append.mp hp with hp | hp
    · have := hb90 p hp
      omega
    · simp at hp
      omega
  · exact getLast?_append_right _ 95 100
  · rw [List.count_append]
    have h0 : (percents evs).count 100 = 0 := by
      rw [List.count_eq_zero]
      intro hc
      have := hb90 100 hc
      omega
    rw [h0]
    rfl
  · intro t1 ts hscript ht1
    subst hscript
    obtain ⟨tl, hhead⟩ := runTurns_head_pct oracle prefer pause
      (t1 :: ts).length t1 ts 1 ⟨[], [], none, false, []⟩ ht1
    rw [hrun] at hhead
    simp only at hhead
    rw [hhead, pct_one]
    rfl

/-- Script whose first turn is whitespace-only (progress for the
remaining turn is then reported at 45%, never 0%). -/
def skipScript : List Turn := [⟨"host", " "⟩, ⟨"guest", "Hi"⟩]

/-- C7 (counterexample): a job whose first turn has empty text runs to
completion without ever invoking the progress callback at percent 0 —
the first call is `int(((2-1)/2)*90) = 45` — refuting "includes at least
one call at percent 0 at job start". -/
theorem claim_C7_counterexample :
    (synthesize_episode_basic trailOracle skipScript 100 true).2 =
      Except.ok ((build_wav [1, 2] 10 1 16).getD [], "wav") ∧
    (0 : Nat) ∉
      percents (synthesize_episode_basic trailOracle skipScript 100 true).1 := by
  decide

/-- C7 (witness): the amended progress properties at a concrete
single-turn completed job. -/
theorem claim_C7_witness :
    ((percents
       (synthesize_episode_basic trailOracle
         [⟨"host", "Hi"⟩] 100 true).1).Sorted (· ≤ ·)) ∧
    (∀ p ∈ percents (synthesize_episode_basic trailOracle
      [⟨"host", "Hi"⟩] 100 true).1, p ≤ 100) ∧
    ((percents (synthesize_episode_basic trailOracle
      [⟨"host", "Hi"⟩] 100 true).1).getLast? = some 100) ∧
    ((percents (synthesize_episode_basic trailOracle
      [⟨"host", "Hi"⟩] 100 true).1).count 100 = 1) ∧
    (∀ t1 ts, ([⟨"host", "Hi"⟩] : List Turn) = t1 :: ts →
      pyStrip t1.text ≠ "" →
      (percents (synthesize_episode_basic trailOracle
        [⟨"host", "Hi"⟩] 100 true).1).head? = some 0) :=
  claim_C7_progress trailOracle [⟨"host", "Hi"⟩] 100 true
    ((build_wav [1, 2] 10 1 16).getD []) "wav" (by decide)

/-! Claim C8: empty turns are skipped; percentages use the original
index and denominator. -/

/-- A network request is only ever issued while handling a non-empty
turn. -/
theorem stepTurn_req_nonempty (oracle : Nat → Bool → Option (List Nat))
    (prefer : Bool) (pause total idx : Nat) (turn : Turn) (st : AsmState)
    (i : Nat) (w : Bool)
    (h : Ev.req i w ∈ (stepTurn oracle prefer pause total idx turn st).1) :
    pyStrip turn.text ≠ "" := by
  rcases stepTurn_cases oracle prefer pause total idx turn st with
    ⟨ht, hstep⟩ | ⟨ht, hpt, hum, pcm, sil, st', hstep, hu', hseg', hpc'⟩ |
    ⟨ht, hpt, hum, pre, hpre, hres⟩ | ⟨ht, hor, hres⟩
  · rw [hstep] at h
    simp at h
  · exact ht
  · exact ht
  · exact ht

/-- Every request in a loop trace belongs to a non-empty turn of the
remaining script. -/
theorem runTurns_req_nonempty (oracle : Nat → Bool → Option (List Nat))
    (prefer : Bool) (pause total : Nat) :
    ∀ (rest : List Turn) (idx : Nat) (st : AsmState) (i : Nat) (w : Bool),
    Ev.req i w ∈ (runTurns oracle prefer pause total rest idx st).1 →
    ∃ t, rest.get? (i - idx) = some t ∧ pyStrip t.text ≠ "" := by
  intro rest
  induction rest with
  | nil =>
    intro idx st i w h
    simp [runTurns] at h
  | cons turn rest ih =>
    intro idx st i w h
    rcases hr : (stepTurn oracle prefer pause total idx turn st).2 with e | st'
    · rw [runTurns_cons_error oracle prefer pause total turn rest idx st e hr]
        at h
      have hi := stepTurn_event_idx oracle prefer pause total idx turn st i
        (Or.inr (Or.inr (Or.inr (Or.inr ⟨w, h⟩))))
      subst hi
      refine ⟨turn, ?_,
        stepTurn_req_nonempty oracle prefer pause total i turn st i w h⟩
      simp
    · rw [runTurns_cons_ok oracle prefer pause total turn rest idx st st' hr]
        at h
      rcases List.mem_append.mp h with h | h
      · have hi := stepTurn_event_idx oracle prefer pause total idx turn st i
          (Or.inr (Or.inr (Or.inr (Or.inr ⟨w, h⟩))))
        subst hi
        refine ⟨turn, ?_,
          stepTurn_req_nonempty oracle prefer pause total i turn st i w h⟩
        simp
      · have hge := runTurns_event_ge oracle prefer pause total rest
          (idx + 1) st' i (Or.inr (Or.inr (Or.inr (Or.inr ⟨w, h⟩))))
        obtain ⟨t, ht1, ht2⟩ := ih (idx + 1) st' i w h
        refine ⟨t, ?_, ht2⟩
        have : i - idx = (i - (idx + 1)) + 1 := by omega
        rw [this]
        simpa using ht1

/-- In one iteration that keeps the job in Raw mode, the emitted
percentages are `[]` for an empty turn and `[pct idx total]` otherwise. -/
theorem runTurns_raw_percents (oracle : Nat → Bool → Option (List Nat))
    (pause total : Nat) :
    ∀ (rest : List Turn) (idx : Nat) (st : AsmState) (st' : AsmState),
    st.using_mp3 = false →
    (runTurns oracle true pause total rest idx st).2 = Except.ok st' →
    st'.using_mp3 = false →
    percents (runTurns oracle true pause total rest idx st).1 =
      (idxListFrom rest idx).map (fun j => pct j total) := by
  intro rest
  induction rest with
  | nil =>
    intro idx st st' hst hok hfin
    simp [runTurns, percents, idxListFrom]
  | cons turn rest ih =>
    intro idx st st' hst hok hfin
    rcases hr : (stepTurn oracle true pause total idx turn st).2 with e | st₁
    · rw [runTurns_cons_error oracle true pause total turn rest idx st e hr]
        at hok
      cases hok
    · rw [runTurns_cons_ok oracle true pause total turn rest idx st st₁ hr]
        at hok ⊢
      simp only at hok
      by_cases hm1 : st₁.using_mp3
      · have := ((runTurns_mp3_phase oracle true pause total rest (idx + 1)
          st₁ hm1).2 st' hok).1
        rw [this] at hfin
        cases hfin
      · have hm1' : st₁.using_mp3 = false := by
          rcases h : st₁.using_mp3 <;> simp_all
        rw [percents_append]
        rw [ih (idx + 1) st₁ st' hm1' hok hfin]
        rcases stepTurn_cases oracle true pause total idx turn st with
          ⟨ht, hstep⟩ | ⟨ht, hpt, hum, pcm, sil, st'', hstep, hu', hseg', hpc'⟩ |
          ⟨ht, hpt, hum, pre, hpre, hres⟩ | ⟨ht, hor, hres⟩
        · rw [hstep]
          simp [percents, idxListFrom, ht]
        · rw [hstep]
          have : st'' = st₁ := by
            rw [hstep] at hr
            simpa using hr
          by_cases hit : idx ≠ total <;>
            simp [percents, idxListFrom, ht, hit]
        · exfalso
          rcases hres with ⟨e, hstep⟩ | ⟨st'', b, hb, hu', hseg', hpc', hstep⟩
          · rw [hstep] at hr
            simp at hr
          · rw [hstep] at hr
            simp only [Except.ok.injEq] at hr
            rw [← hr] at hm1'
            rw [hu'] at hm1'
            cases hm1'
        · rcases hor with hp | hp
          · cases hp
          · rw [hp] at hst
            cases hst

/-- C8 (amended): turns whose text is empty after stripping cause no TTS
request at all; but the progress percentages are computed from the turn's
ORIGINAL 1-based index and the ORIGINAL script length — for a completed
raw-mode job they are exactly `⌊90(i−1)/n⌋` over the non-empty indices
`i`, followed by 95 and 100 — so they are NOT invariant under removing
the empty turns. -/
theorem claim_C8_skip_and_denominator :
    (∀ (oracle : Nat → Bool → Option (List Nat)) (script : List Turn)
      (pause : Nat) (prefer : Bool) (i : Nat) (w : Bool),
      Ev.req i w ∈ (synthesize_episode_basic oracle script pause prefer).1 →
      ∃ t, script.get? (i - 1) = some t ∧ pyStrip t.text ≠ "") ∧
    (∀ (oracle : Nat → Bool → Option (List Nat)) (script : List Turn)
      (pause : Nat) (b : List Nat),
      (synthesize_episode_basic oracle script pause true).2 =
        Except.ok (b, "wav") →
      percents (synthesize_episode_basic oracle script pause true).1 =
        (nonEmptyIdxs script).map (fun j => pct j script.length) ++
          [95, 100]) := by
  constructor
  · intro oracle script pause prefer i w h
    unfold synthesize_episode_basic at h
    by_cases hs : script = []
    · rw [if_pos hs] at h
      simp at h
    · rw [if_neg hs] at h
      rcases hrun : runTurns oracle prefer pause script.length script 1
        ⟨[], [], none, false, []⟩ with ⟨evs, r⟩
      rw [hrun] at h
      have hmem : Ev.req i w ∈ evs := by
        rcases r with e | st
        · simpa using h
        · simp only at h
          by_cases hm : st.using_mp3
          · rw [if_pos hm] at h
            simp only [List.mem_append] at h
            rcases h with h' | h'
            · exact h'
            · simp at h'
          · rw [if_neg hm] at h
            rcases hfmt : st.fmt with _ | ⟨sr, channels, bps⟩
            · rw [hfmt] at h
              simpa using h
            · rw [hfmt] at h
              dsimp only at h
              rcases hb : build_wav st.pcm_chunks.flatten sr channels bps
                with _ | w'
              · rw [hb] at h
                simpa using h
              · rw [hb] at h
                simp only [List.mem_append] at h
                rcases h with h' | h'
                · exact h'
                · simp at h'
      have := runTurns_req_nonempty oracle prefer pause script.length
        script 1 ⟨[], [], none, false, []⟩ i w (by rw [hrun]; exact hmem)
      exact this
  · intro oracle script pause b h
    obtain ⟨hs, evs, st, m, hrun, htr, hwav, _⟩ := synth_ok_inv h
    have hm := hwav rfl
    have hp := runTurns_raw_percents oracle pause script.length script 1
      ⟨[], [], none, false, []⟩ st rfl (by rw [hrun]) hm
    rw [hrun] at hp
    simp only at hp
    rw [htr, percents_append, hp]
    rfl

/-- C8 (counterexample): a script with a leading empty turn reports its
only non-empty turn at percent `int((1/2)*90) = 45`, while the same job
on the script with the empty turns removed reports it at percent 0 —
the percentages are NOT identical, because the denominator and index
include the empty turns. -/
theorem claim_C8_counterexample :
    percents (synthesize_episode_basic trailOracle skipScript 100 true).1 =
      [45, 95, 100] ∧
    percents (synthesize_episode_basic trailOracle
      (skipScript.filter fun t => !(pyStrip t.text == "")) 100 true).1 =
      [0, 95, 100] ∧
    ([45, 95, 100] : List Nat) ≠ [0, 95, 100] := by
  decide

/-- C8 (witness): the amended statement at concrete inputs — the request
issued for turn 2 of the skip-script belongs to a non-empty turn, and a
concrete completed raw job's percentages are the non-empty-index map
followed by 95 and 100. -/
theorem claim_C8_witness :
    (∃ t, skipScript.get? (2 - 1) = some t ∧ pyStrip t.text ≠ "") ∧
    percents (synthesize_episode_basic trailOracle
      [⟨"host", "Hi"⟩] 100 true).1 =
      (nonEmptyIdxs [⟨"host", "Hi"⟩]).map
        (fun j => pct j ([⟨"host", "Hi"⟩] : List Turn).length) ++
        [95, 100] :=
  ⟨claim_C8_skip_and_denominator.1 trailOracle skipScript 100 true 2 true
      (by decide),
    claim_C8_skip_and_denominator.2 trailOracle [⟨"host", "Hi"⟩] 100
      ((build_wav [1, 2] 10 1 16).getD []) (by decide)⟩

/-! Claim C10: a downgrade at turn k discards the accumulated PCM. -/

theorem idxListFrom_ge : ∀ (rest : List Turn) (i j : Nat),
    j ∈ idxListFrom rest i → i ≤ j := by
  intro rest
  induction rest with
  | nil =>
    intro i j h
    simp [idxListFrom] at h
  | cons t rest ih =>
    intro i j h
    rw [idxListFrom] at h
    by_cases ht : pyStrip t.text = ""
    · rw [if_pos ht] at h
      have := ih (i + 1) j h
      omega
    · rw [if_neg ht] at h
      rcases List.mem_cons.mp h with h | h
      · omega
      · have := ih (i + 1) j h
        omega

/-- If a Raw-mode job with an empty segment list downgrades at turn `k`
and completes, its final segment list holds exactly the MP3 responses of
the non-empty turns from `k` on. -/
theorem runTurns_downgrade_segments (oracle : Nat → Bool → Option (List Nat))
    (pause total : Nat) :
    ∀ (rest : List Turn) (idx : Nat) (st st' : AsmState) (k : Nat),
    st.using_mp3 = false → st.mp3_segments = [] →
    (runTurns oracle true pause total rest idx st).2 = Except.ok st' →
    Ev.downgrade k ∈ (runTurns oracle true pause total rest idx st).1 →
    st'.mp3_segments =
      ((idxListFrom rest idx).filter (fun j => k ≤ j)).map
        (fun j => (oracle j false).getD []) := by
  intro rest
  induction rest with
  | nil =>
    intro idx st st' k hst hseg hok hdg
    simp [runTurns] at hdg
  | cons turn rest ih =>
    intro idx st st' k hst hseg hok hdg
    rcases hr : (stepTurn oracle true pause total idx turn st).2 with e | st₁
    · rw [runTurns_cons_error oracle true pause total turn rest idx st e hr]
        at hok
      cases hok
    · rw [runTurns_cons_ok oracle true pause total turn rest idx st st₁ hr]
        at hok hdg
      simp only at hok
      simp only [List.mem_append] at hdg
      rcases stepTurn_cases oracle true pause total idx turn st with
        ⟨ht, hstep⟩ | ⟨ht, hpt, hum, pcm, sil, st'', hstep, hu', hseg', hpc'⟩ |
        ⟨ht, hpt, hum, pre, hpre, hres⟩ | ⟨ht, hor, hres⟩
      · -- skip
        have hst₁ : st = st₁ := by
          rw [hstep] at hr
          simpa using hr
        rw [← hst₁] at hok hdg
        have hdg₂ : Ev.downgrade k ∈
            (runTurns oracle true pause total rest (idx + 1) st).1 := by
          rcases hdg with h | h
          · rw [hstep] at h
            simp at h
          · exact h
        rw [ih (idx + 1) st st' k hst hseg hok hdg₂]
        simp [idxListFrom, ht]
      · -- WAV success, still raw
        have hst₁ : st'' = st₁ := by
          rw [hstep] at hr
          simpa using hr
        rw [← hst₁] at hok hdg
        have hdg₂ : Ev.downgrade k ∈
            (runTurns oracle true pause total rest (idx + 1) st'').1 := by
          rcases hdg with h | h
          · rw [hstep] at h
            by_cases hit : idx ≠ total <;> simp [hit] at h
          · exact h
        have hk : idx + 1 ≤ k :=
          runTurns_event_ge oracle true pause total rest (idx + 1) st'' k
            (Or.inr (Or.inr (Or.inl hdg₂)))
        rw [ih (idx + 1) st'' st' k hu' (by rw [hseg', hseg]) hok hdg₂]
        have hnk : ¬ (k ≤ idx) := by omega
        simp [idxListFrom, ht, hnk]
      · -- downgrade happened at this turn
        rcases hres with ⟨e, hstep⟩ | ⟨st'', b, hb, hu', hseg', hpc', hstep⟩
        · rw [hstep] at hr
          simp at hr
        · have hst₁ : st'' = st₁ := by
            rw [hstep] at hr
            simpa using hr
          rw [← hst₁] at hok hdg
          have hmp := runTurns_mp3_phase oracle true pause total rest
            (idx + 1) st'' hu'
          have hkidx : idx = k := by
            rcases hdg with h | h
            · exact (stepTurn_event_idx oracle true pause total idx turn st
                k (Or.inr (Or.inr (Or.inl h)))).symm
            · exfalso
              have hnd := noDowngrade_of_streamOnly hmp.1
              simp only [noDowngrade, List.all_eq_true] at hnd
              have := hnd (Ev.downgrade k) h
              simp [isDowngrade] at this
          subst hkidx
          have hfin := (hmp.2 st' hok).2
          rw [hfin, hseg', hseg]
          have hkeep : (idxListFrom rest (idx + 1)).filter
              (fun j => idx ≤ j) = idxListFrom rest (idx + 1) := by
            rw [List.filter_eq_self]
            intro j hj
            have := idxListFrom_ge rest (idx + 1) j hj
            simp
            omega
          simp [idxListFrom, ht, List.filter_cons, hkeep, hb]
      · rcases hor with hp | hp
        · cases hp
        · rw [hp] at hst
          cases hst

/-- C10: if a completed job downgraded at turn `k`, the returned buffer
is the byte-for-byte concatenation of the stream (MP3) responses of the
non-empty turns from `k` onward only — the PCM samples accumulated from
turns before `k` are discarded and absent from the output. -/
theorem claim_C10_downgrade_discards
    (oracle : Nat → Bool → Option (List Nat)) (script : List Turn)
    (pause : Nat) (b : List Nat) (k : Nat)
    (h : (synthesize_episode_basic oracle script pause true).2 =
      Except.ok (b, "mp3"))
    (hdg : Ev.downgrade k ∈
      (synthesize_episode_basic oracle script pause true).1) :
    b = (((nonEmptyIdxs script).filter (fun j => k ≤ j)).map
      (fun j => (oracle j false).getD [])).flatten := by
  obtain ⟨hs, evs, st, m, hrun, htr, _, hmp3⟩ := synth_ok_inv h
  obtain ⟨hm, hb⟩ := hmp3 rfl
  rw [htr] at hdg
  have hdg' : Ev.downgrade k ∈ evs := by
    rcases List.mem_append.mp hdg with h' | h'
    · exact h'
    · simp at h'
  have hseg := runTurns_downgrade_segments oracle pause script.length
    script 1 ⟨[], [], none, false, []⟩ st k rfl rfl
    (by rw [hrun]) (by rw [hrun]; exact hdg')
  rw [hb, hseg]
  rfl

/-- Oracle for the C10 witness: turn 1 parses, turn 2's WAV response is
garbage (3 bytes), every MP3 request returns a valid MPEG frame. -/
def c10Oracle : Nat → Bool → Option (List Nat) := fun i w =>
  if w then (if i = 1 then build_wav [1, 2] 10 1 16 else some [9, 9, 9])
  else some [255, 251, 9, 9]

/-- C10 (witness): at the concrete job that parses turn 1 and downgrades
at turn 2, the output is exactly turn 2's stream segment — turn 1's PCM
is gone. -/
theorem claim_C10_witness :
    ([255, 251, 9, 9] : List Nat) =
      (((nonEmptyIdxs mismatchScript).filter (fun j => 2 ≤ j)).map
        (fun j => (c10Oracle j false).getD [])).flatten :=
  claim_C10_downgrade_discards c10Oracle mismatchScript 100
    [255, 251, 9, 9] 2 (by decide) (by decide)

end PodcastAudio
